import Mathlib

/-!
# Verification of the Wuyu vowel-chain cleaning pipeline

A shallow embedding of `scripts/clean_wenzhou.py`.  Data frames are modelled
as a column list plus rows; a row is an association list from column name to
cell.  A cell is either missing (pandas `NaN`), a string, or an integer
(`pd.read_csv` turns empty fields into `NaN`, so a present string cell is
never empty).  The script's straight-line pipeline is split into named stage
functions, each translated from the corresponding lines of the source.
-/

set_option maxHeartbeats 1000000

namespace Wuyu

/-- A cell of a data frame: missing value (`NaN`/`None`), a string, or an
integer. -/
inductive Cell where
  | null : Cell
  | str : String → Cell
  | int : Int → Cell
deriving DecidableEq, Repr

/-- A row of a data frame: an association list from column name to cell.
A column absent from the row reads as `Cell.null`. -/
abbrev Row := List (String × Cell)

/-- A data frame: the ordered column list and the list of rows. -/
structure DF where
  cols : List String
  rows : List Row
deriving DecidableEq, Repr

/-- Read a cell of a row (`df["c"]` pointwise); absent columns read as
`null`, matching how a frame produced by concatenation of heterogeneous
sources fills missing fields with `NaN`. -/
def getCell : Row → String → Cell
  | [], _ => Cell.null
  | (k, v) :: r, c => if k = c then v else getCell r c

/-- Overwrite (or append) the binding of column `c` in a row. -/
def setCell (r : Row) (c : String) (v : Cell) : Row :=
  (c, v) :: r.filter (fun p => decide (p.1 ≠ c))

/-- Well-formedness: every binding of every row names a column of the
frame (always true of frames produced by pandas). -/
def DF.WF (d : DF) : Prop :=
  ∀ r ∈ d.rows, ∀ p ∈ r, p.1 ∈ d.cols

instance (d : DF) : Decidable d.WF := by
  unfold DF.WF; infer_instance

/-! ## Feature Extractor (`extract_vowel_symbol`, source lines 63–73)

`VOWEL_PATTERN = r"[aeiouAEIOUɤɔøœəɯɐʌyɨ]+"`; `re.search` returns the
leftmost match, and `+` is greedy, so the match is the first maximal
contiguous run of inventory characters. -/

/-- The fixed vowel-symbol inventory of `VOWEL_PATTERN`. -/
def vowelChars : List Char :=
  ['a', 'e', 'i', 'o', 'u', 'A', 'E', 'I', 'O', 'U',
   'ɤ', 'ɔ', 'ø', 'œ', 'ə', 'ɯ', 'ɐ', 'ʌ', 'y', 'ɨ']

/-- Membership in the vowel-symbol inventory. -/
def isVowelChar (c : Char) : Bool := vowelChars.contains c

/-- Leftmost maximal run of inventory characters (the semantics of
`re.search(VOWEL_PATTERN, s)` followed by `m.group(0)`). -/
def firstVowelRun : List Char → Option (List Char)
  | [] => none
  | c :: cs =>
    if isVowelChar c then some (c :: cs.takeWhile isVowelChar)
    else firstVowelRun cs

/-- Python `str(...)` applied to a non-null cell value. -/
def pyStr : Cell → String
  | Cell.null => "None"
  | Cell.str s => s
  | Cell.int n => toString n

/-- `extract_vowel_symbol(ipa)`: `None` for a missing value, otherwise the
first regex match of `VOWEL_PATTERN` in `str(ipa)`, or `None` when there is
no match. -/
def extract_vowel_symbol (ipa : Cell) : Cell :=
  match ipa with
  | Cell.null => Cell.null
  | v =>
    match firstVowelRun (pyStr v).toList with
    | some run => Cell.str (String.mk run)
    | none => Cell.null

/-! ## Pipeline stages

Errors are modelled structurally: the script raises `FileNotFoundError`
(line 21), `ValueError` for a missing base/point column (lines 30, 38) and
for an unrecognised reading column (line 60: `"没找到读音列"`), and pandas
itself raises `KeyError` inside `merge` when a join key names no column. -/

/-- The exceptions the script can raise. -/
inductive PipeError where
  | fileNotFound (what : String)
  | missingBaseCols (cols : List String)
  | missingPointCols (cols : List String)
  | keyError (col : String)
  | noReadingCol
deriving DecidableEq, Repr

instance {ε α : Type} [DecidableEq ε] [DecidableEq α] :
    DecidableEq (Except ε α) := fun x y =>
  match x, y with
  | .error a, .error b =>
    if h : a = b then .isTrue (by rw [h])
    else .isFalse (by intro hc; cases hc; exact h rfl)
  | .ok a, .ok b =>
    if h : a = b then .isTrue (by rw [h])
    else .isFalse (by intro hc; cases hc; exact h rfl)
  | .error _, .ok _ => .isFalse (by intro hc; cases hc)
  | .ok _, .error _ => .isFalse (by intro hc; cases hc)

/-- Column list of `pd.concat`: the union of the frames' columns in first
appearance order. -/
def concatCols (ds : List DF) : List String :=
  ds.foldl (fun acc d => acc ++ d.cols.filter (fun c => decide (c ∉ acc))) []

/-- `pd.concat(df_list, ignore_index=True)`. -/
def concatDF (ds : List DF) : DF :=
  ⟨concatCols ds, ds.foldl (fun acc d => acc ++ d.rows) []⟩

/-- Lines 13–25: load the per-point files when any exist, else the legacy
single file, else raise `FileNotFoundError`. -/
def loadRaw (pointFiles : List DF) (legacy : Option DF) : Except PipeError DF :=
  if pointFiles.isEmpty then
    match legacy with
    | some d => .ok d
    | none => .error (.fileNotFound "data_raw")
  else .ok (concatDF pointFiles)

/-- Line 28. -/
def required_base_cols : List String := ["韵", "声组", "汉字", "读音"]

/-- Lines 28–31: `ValueError` when a required base column is absent. -/
def checkBaseCols (df : DF) : Except PipeError DF :=
  if (required_base_cols.filter (fun c => decide (c ∉ df.cols))).isEmpty then .ok df
  else .error (.missingBaseCols (required_base_cols.filter (fun c => decide (c ∉ df.cols))))

/-- Lines 32–33: keep rows where `韵` and `声组` are non-null, then drop
rows whose `韵` equals the header token `"韵"`. -/
def filterValid (df : DF) : DF :=
  ⟨df.cols,
   (df.rows.filter (fun r =>
      decide (getCell r "韵" ≠ Cell.null) && decide (getCell r "声组" ≠ Cell.null))).filter
     (fun r => decide (getCell r "韵" ≠ Cell.str "韵"))⟩

/-- Line 36. -/
def required_point_cols : List String :=
  ["point_id", "point_name", "subbranch", "lat", "lon"]

/-- Lines 36–39: `ValueError` when a point-identity column is absent. -/
def checkPointCols (df : DF) : Except PipeError DF :=
  if (required_point_cols.filter (fun c => decide (c ∉ df.cols))).isEmpty then .ok df
  else .error (.missingPointCols (required_point_cols.filter (fun c => decide (c ∉ df.cols))))

/-- Line 42: `pd.read_csv` of the mapping file; absent file raises
`FileNotFoundError`. -/
def loadRhymeMap : Option DF → Except PipeError DF
  | some rm => .ok rm
  | none => .error (.fileNotFound "rhyme_slot_mapping.csv")

/-- Columns common to both frames; pandas renames these with `_x`/`_y`
suffixes in a merge result. -/
def overlapCols (l r : DF) : List String :=
  l.cols.filter (fun c => decide (c ∈ r.cols))

/-- Apply the merge suffix to an overlapping column name. -/
def suffixName (ov : List String) (suf : String) (c : String) : String :=
  if c ∈ ov then c ++ suf else c

/-- Apply the merge suffix to every binding of a row. -/
def suffixRow (ov : List String) (suf : String) (row : Row) : Row :=
  row.map (fun p => (suffixName ov suf p.1, p.2))

/-- Output rows a single left row contributes to a left merge: one row per
matching right row, or the left row alone (right columns null) when no
right row matches. -/
def joinOne (r : DF) (lk rk : String) (ov : List String) (lr : Row) : List Row :=
  if (r.rows.filter (fun rr => decide (getCell rr rk = getCell lr lk))).isEmpty
  then [suffixRow ov "_x" lr]
  else (r.rows.filter (fun rr => decide (getCell rr rk = getCell lr lk))).map
    (fun rr => suffixRow ov "_x" lr ++ suffixRow ov "_y" rr)

/-- Number of mapping rows whose key column `rk` holds the key `k`. -/
def matchCount (rm : DF) (rk : String) (k : Cell) : Nat :=
  (rm.rows.filter (fun rr => decide (getCell rr rk = k))).length

/-- Concatenate the contributions of all left rows (order preserving). -/
def joinAll (f : Row → List Row) : List Row → List Row
  | [] => []
  | x :: xs => f x ++ joinAll f xs

/-- Lines 44–49: `df.merge(rhyme_map, left_on="韵", right_on="rhyme",
how="left")`.  pandas raises `KeyError` when a join key names no column. -/
def mergeLeft (l r : DF) (lk rk : String) : Except PipeError DF :=
  if lk ∈ l.cols then
    if rk ∈ r.cols then
      let ov := overlapCols l r
      .ok ⟨l.cols.map (suffixName ov "_x") ++ r.cols.map (suffixName ov "_y"),
           joinAll (joinOne r lk rk ov) l.rows⟩
    else .error (.keyError rk)
  else .error (.keyError lk)

/-- `df["c"] = ...` column assignment: an existing column keeps its place,
a new one is appended at the end. -/
def assignCol (d : DF) (c : String) (f : Row → Cell) : DF :=
  ⟨if c ∈ d.cols then d.cols else d.cols ++ [c],
   d.rows.map (fun r => setCell r c (f r))⟩

/-- Line 58's rename table: `{"汉字": "char", "读音": "phonetic"}`. -/
def renameMap : List (String × String) := [("汉字", "char"), ("读音", "phonetic")]

/-- Apply a rename table to one column name. -/
def renameName : List (String × String) → String → String
  | [], c => c
  | (a, b) :: t, c => if a = c then b else renameName t c

/-- `df.rename(columns=...)`: renames the columns that exist, ignores table
entries naming absent columns. -/
def renameCols (d : DF) (t : List (String × String)) : DF :=
  ⟨d.cols.map (renameName t),
   d.rows.map (fun r => r.map (fun p => (renameName t p.1, p.2)))⟩

/-- Lines 57–60: rename `汉字`/`读音` when `读音` exists, else raise
`ValueError("没找到读音列…")`. -/
def renameReading (df : DF) : Except PipeError DF :=
  if "读音" ∈ df.cols then .ok (renameCols df renameMap)
  else .error .noReadingCol

/-- Lines 63–81: the column derivations after the reading-column rename —
`vowel_symbol`, `vowel_class`, and the five constant annotations, in source
order. -/
def annotateTail (d2 : DF) : DF :=
  let d3 := assignCol d2 "vowel_symbol"
    (fun r => extract_vowel_symbol (getCell r "phonetic"))
  let d4 := assignCol d3 "vowel_class" (fun r => getCell r "vowel_symbol")
  let d5 := assignCol d4 "reading_layer" (fun _ => Cell.str "main")
  let d6 := assignCol d5 "mainlayer_flag" (fun _ => Cell.int 1)
  let d7 := assignCol d6 "combo_validity" (fun _ => Cell.int 1)
  let d8 := assignCol d7 "zero_type" (fun _ => Cell.str "none")
  assignCol d8 "feature_change" (fun _ => Cell.null)

/-- Lines 52–81: the column derivations between the merge and the final
projection, in source order.  Line 53 (`df["onset_class"] = df["声组"]`)
first *reads* the `声组` column, so pandas raises `KeyError: '声组'` when
that column is absent — which happens when the reference mapping itself
carries a `声组` column and the merge suffixes the source's away; only then
come the reading-column rename and `annotateTail`. -/
def annotateAll (df : DF) : Except PipeError DF :=
  if "声组" ∈ df.cols then
    match renameReading (assignCol df "onset_class" (fun r => getCell r "声组")) with
    | .error e => .error e
    | .ok d2 => .ok (annotateTail d2)
  else .error (.keyError "声组")

/-- Lines 84–92: the canonical 19-column output order. -/
def cols_order : List String :=
  ["point_id", "point_name", "subbranch", "lat", "lon",
   "rhyme_modern", "chain_slot", "slot_type_initial", "is_free",
   "onset_class",
   "char", "phonetic", "vowel_symbol", "vowel_class",
   "reading_layer", "mainlayer_flag",
   "combo_validity", "zero_type",
   "feature_change"]

/-- Lines 94–99 on their success path: assign `rhyme_modern` from the raw
`韵` column, keep only the canonical columns that exist, and project each
row onto them.  Line 95 (`df["rhyme_modern"] = df["韵"]`) first *reads* the
`韵` column and raises `KeyError: '韵'` when it is absent; that guard lives
in `cleanFrom`, which applies this projection only once the read is known
to succeed. -/
def assembleClean (df : DF) : DF :=
  let d2 := assignCol df "rhyme_modern" (fun r => getCell r "韵")
  let keep := cols_order.filter (fun c => decide (c ∈ d2.cols))
  ⟨keep, d2.rows.map (fun r => keep.map (fun c => (c, getCell r c)))⟩

/-- The pipeline from the merge on.  Line 95 reads `df["韵"]`, so pandas
raises `KeyError: '韵'` when the annotated frame has no `韵` column — which
happens when the reference mapping itself carries a `韵` column and the
merge suffixes the source's away. -/
def cleanFrom (df rm : DF) : Except PipeError DF :=
  match mergeLeft df rm "韵" "rhyme" with
  | .error e => .error e
  | .ok m =>
    match annotateAll m with
    | .error e => .error e
    | .ok a =>
      if "韵" ∈ a.cols then .ok (assembleClean a)
      else .error (.keyError "韵")

/-- Lines 13–39: load, base-column check, row filter, point-column check. -/
def stagePre (pointFiles : List DF) (legacy : Option DF) : Except PipeError DF :=
  match loadRaw pointFiles legacy with
  | .error e => .error e
  | .ok d1 =>
    match checkBaseCols d1 with
    | .error e => .error e
    | .ok d2 => checkPointCols (filterValid d2)

/-- The whole script: raw inputs, reference mapping file, clean output. -/
def pipeline (pointFiles : List DF) (legacy : Option DF)
    (rmFile : Option DF) : Except PipeError DF :=
  match stagePre pointFiles legacy with
  | .error e => .error e
  | .ok df =>
    match loadRhymeMap rmFile with
    | .error e => .error e
    | .ok rm => cleanFrom df rm

/-! ## Concrete test data -/

/-- A well-formed one-row legacy source frame. -/
def dfGood : DF :=
  ⟨["韵", "声组", "汉字", "读音", "point_id", "point_name", "subbranch", "lat", "lon"],
   [[("韵", Cell.str "咍"), ("声组", Cell.str "帮"), ("汉字", Cell.str "呆"),
     ("读音", Cell.str "kʰɤ˧˥"), ("point_id", Cell.str "WZ01"),
     ("point_name", Cell.str "温州"), ("subbranch", Cell.str "瓯江"),
     ("lat", Cell.null), ("lon", Cell.null)]]⟩

/-- A reference mapping with all five documented columns, whose canonical
modern label `"ai"` differs from the raw rhyme label `"咍"`. -/
def rmGood : DF :=
  ⟨["rhyme", "rhyme_modern", "chain_slot", "slot_type_initial", "is_free"],
   [[("rhyme", Cell.str "咍"), ("rhyme_modern", Cell.str "ai"),
     ("chain_slot", Cell.str "S1"), ("slot_type_initial", Cell.str "A"),
     ("is_free", Cell.int 0)]]⟩

/-- A reference mapping carrying only the join key, none of the
mapped-attribute columns. -/
def rmNoAttrs : DF := ⟨["rhyme"], [[("rhyme", Cell.str "咍")]]⟩

/-- A reference mapping that also carries a `声组` column: the merge
suffixes the source's `声组` away, so line 53's read crashes. -/
def rmWithOnset : DF :=
  ⟨["rhyme", "声组"], [[("rhyme", Cell.str "咍"), ("声组", Cell.str "幫")]]⟩

/-- A reference mapping that also carries a `韵` column: the merge suffixes
the source's `韵` away, so line 95's read crashes. -/
def rmWithYun : DF :=
  ⟨["rhyme", "韵"], [[("rhyme", Cell.str "咍"), ("韵", Cell.str "哈")]]⟩

/-- The merge of `dfGood` with `rmGood` (value checked by evaluation). -/
def mergedGood : DF :=
  ⟨["韵", "声组", "汉字", "读音", "point_id", "point_name", "subbranch", "lat",
    "lon", "rhyme", "rhyme_modern", "chain_slot", "slot_type_initial", "is_free"],
   [[("韵", Cell.str "咍"), ("声组", Cell.str "帮"), ("汉字", Cell.str "呆"),
     ("读音", Cell.str "kʰɤ˧˥"), ("point_id", Cell.str "WZ01"),
     ("point_name", Cell.str "温州"), ("subbranch", Cell.str "瓯江"),
     ("lat", Cell.null), ("lon", Cell.null), ("rhyme", Cell.str "咍"),
     ("rhyme_modern", Cell.str "ai"), ("chain_slot", Cell.str "S1"),
     ("slot_type_initial", Cell.str "A"), ("is_free", Cell.int 0)]]⟩

/-- `annotateAll mergedGood` (value checked by evaluation). -/
def annotGood : DF :=
  ⟨["韵", "声组", "char", "phonetic", "point_id", "point_name", "subbranch",
    "lat", "lon", "rhyme", "rhyme_modern", "chain_slot", "slot_type_initial",
    "is_free", "onset_class", "vowel_symbol", "vowel_class", "reading_layer",
    "mainlayer_flag", "combo_validity", "zero_type", "feature_change"],
   [[("feature_change", Cell.null), ("zero_type", Cell.str "none"),
     ("combo_validity", Cell.int 1), ("mainlayer_flag", Cell.int 1),
     ("reading_layer", Cell.str "main"), ("vowel_class", Cell.str "ɤ"),
     ("vowel_symbol", Cell.str "ɤ"), ("onset_class", Cell.str "帮"),
     ("韵", Cell.str "咍"), ("声组", Cell.str "帮"), ("char", Cell.str "呆"),
     ("phonetic", Cell.str "kʰɤ˧˥"), ("point_id", Cell.str "WZ01"),
     ("point_name", Cell.str "温州"), ("subbranch", Cell.str "瓯江"),
     ("lat", Cell.null), ("lon", Cell.null), ("rhyme", Cell.str "咍"),
     ("rhyme_modern", Cell.str "ai"), ("chain_slot", Cell.str "S1"),
     ("slot_type_initial", Cell.str "A"), ("is_free", Cell.int 0)]]⟩

/-- A source whose reading column bears an alternate subbranch-specific
name (`字音`) instead of the primary name `读音`. -/
def dfAltReading : DF :=
  ⟨["韵", "声组", "汉字", "字音", "point_id", "point_name", "subbranch", "lat", "lon"],
   [[("韵", Cell.str "咍"), ("声组", Cell.str "帮"), ("汉字", Cell.str "呆"),
     ("字音", Cell.str "kʰɤ˧˥"), ("point_id", Cell.str "WZ02"),
     ("point_name", Cell.str "樂清"), ("subbranch", Cell.str "瓯江"),
     ("lat", Cell.null), ("lon", Cell.null)]]⟩

/-- A single-point legacy source carrying only the base columns and no
inline point-identity columns. -/
def dfNoPoint : DF :=
  ⟨["韵", "声组", "汉字", "读音"],
   [[("韵", Cell.str "咍"), ("声组", Cell.str "帮"), ("汉字", Cell.str "呆"),
     ("读音", Cell.str "kʰɤ˧˥")]]⟩

/-- The pipeline output for `dfGood` joined against `rmNoAttrs` (value
checked by evaluation): only 16 of the 19 canonical columns. -/
def cleanNoAttrs : DF :=
  ⟨["point_id", "point_name", "subbranch", "lat", "lon", "rhyme_modern",
    "onset_class", "char", "phonetic", "vowel_symbol", "vowel_class",
    "reading_layer", "mainlayer_flag", "combo_validity", "zero_type",
    "feature_change"],
   [[("point_id", Cell.str "WZ01"), ("point_name", Cell.str "温州"),
     ("subbranch", Cell.str "瓯江"), ("lat", Cell.null), ("lon", Cell.null),
     ("rhyme_modern", Cell.str "咍"), ("onset_class", Cell.str "帮"),
     ("char", Cell.str "呆"), ("phonetic", Cell.str "kʰɤ˧˥"),
     ("vowel_symbol", Cell.str "ɤ"), ("vowel_class", Cell.str "ɤ"),
     ("reading_layer", Cell.str "main"), ("mainlayer_flag", Cell.int 1),
     ("combo_validity", Cell.int 1), ("zero_type", Cell.str "none"),
     ("feature_change", Cell.null)]]⟩

@[simp] theorem getCell_nil (c : String) : getCell [] c = Cell.null := rfl

@[simp] theorem getCell_cons (k : String) (v : Cell) (r : Row) (c : String) :
    getCell ((k, v) :: r) c = if k = c then v else getCell r c := rfl

theorem getCell_setCell_same (r : Row) (c : String) (v : Cell) :
    getCell (setCell r c v) c = v := by
  simp [setCell]

theorem getCell_filter_ne (r : Row) (c c' : String) (h : c ≠ c') :
    getCell (r.filter (fun p => decide (p.1 ≠ c))) c' = getCell r c' := by
  induction r with
  | nil => rfl
  | cons p r ih =>
    cases p with
    | mk k v =>
      by_cases hk : k = c
      · subst hk
        rw [List.filter_cons_of_neg (by simp)]
        rw [ih]
        simp [h]
      · rw [List.filter_cons_of_pos (by simp [hk])]
        simp only [getCell_cons, ih]

theorem getCell_setCell_other (r : Row) (c c' : String) (v : Cell)
    (h : c ≠ c') : getCell (setCell r c v) c' = getCell r c' := by
  simp only [setCell, getCell_cons, if_neg h]
  exact getCell_filter_ne r c c' h

theorem getCell_append_left (r₁ r₂ : Row) (c : String)
    (h : c ∈ r₁.map Prod.fst) :
    getCell (r₁ ++ r₂) c = getCell r₁ c := by
  induction r₁ with
  | nil => simp at h
  | cons p r ih =>
    cases p with
    | mk k v =>
      by_cases hk : k = c
      · simp [hk]
      · simp only [List.map_cons, List.mem_cons] at h
        rcases h with h | h
        · exact absurd h.symm hk
        · simp [hk, ih h]

theorem getCell_append_right (r₁ r₂ : Row) (c : String)
    (h : c ∉ r₁.map Prod.fst) :
    getCell (r₁ ++ r₂) c = getCell r₂ c := by
  induction r₁ with
  | nil => simp
  | cons p r ih =>
    cases p with
    | mk k v =>
      simp only [List.map_cons, List.mem_cons, not_or] at h
      have hk : k ≠ c := fun e => h.1 e.symm
      simp [hk, ih h.2]

theorem getCell_eq_null_of_not_mem (r : Row) (c : String)
    (h : c ∉ r.map Prod.fst) : getCell r c = Cell.null := by
  induction r with
  | nil => rfl
  | cons p r ih =>
    cases p with
    | mk k v =>
      simp only [List.map_cons, List.mem_cons, not_or] at h
      have hk : k ≠ c := fun e => h.1 e.symm
      simp [hk, ih h.2]

theorem head_dropWhile_not {α : Type} (p : α → Bool) (l : List α) :
    ∀ c, (l.dropWhile p).head? = some c → ¬(p c = true) := by
  induction l with
  | nil => intro c h; simp [List.dropWhile] at h
  | cons x xs ih =>
    intro c h
    by_cases hx : p x
    · rw [List.dropWhile_cons_of_pos hx] at h
      exact ih c h
    · rw [List.dropWhile_cons_of_neg hx] at h
      simp only [List.head?_cons, Option.some.injEq] at h
      rw [← h]; exact hx

theorem firstVowelRun_eq_none_iff (l : List Char) :
    firstVowelRun l = none ↔ ∀ c ∈ l, ¬(isVowelChar c = true) := by
  induction l with
  | nil => simp [firstVowelRun]
  | cons c cs ih =>
    by_cases hc : isVowelChar c
    · simp [firstVowelRun, hc]
    · simp [firstVowelRun, hc, ih]

theorem firstVowelRun_spec (l run : List Char)
    (h : firstVowelRun l = some run) :
    ∃ pre post, l = pre ++ run ++ post ∧ run ≠ [] ∧
      (∀ c ∈ run, isVowelChar c = true) ∧
      (∀ c ∈ pre, ¬(isVowelChar c = true)) ∧
      (∀ c, post.head? = some c → ¬(isVowelChar c = true)) := by
  induction l with
  | nil => simp [firstVowelRun] at h
  | cons c cs ih =>
    by_cases hc : isVowelChar c
    · simp only [firstVowelRun, if_pos hc, Option.some.injEq] at h
      refine ⟨[], cs.dropWhile isVowelChar, ?_, ?_, ?_, ?_, ?_⟩
      · simp [← h, List.takeWhile_append_dropWhile]
      · simp [← h]
      · intro x hx
        rw [← h] at hx
        rcases List.mem_cons.1 hx with rfl | hx
        · exact hc
        · exact List.mem_takeWhile_imp hx
      · simp
      · exact head_dropWhile_not isVowelChar cs
    · simp only [firstVowelRun, if_neg hc] at h
      obtain ⟨pre, post, hl, hne, hrun, hpre, hpost⟩ := ih h
      refine ⟨c :: pre, post, by simp [hl], hne, hrun, ?_, hpost⟩
      intro x hx
      rcases List.mem_cons.1 hx with rfl | hx
      · exact hc
      · exact hpre x hx

/-! ## Claim C3 — the vowel extractor -/

/-- C3: `extract_vowel_symbol` is a pure deterministic function of the
transcription that returns the first maximal contiguous run of characters
drawn from the fixed vowel-symbol inventory, and null when the transcription
is absent or contains no inventory character; in particular it maps
`"kʰɤ˧˥"` to `"ɤ"`, `"m̩˨˩"` to null, and a null transcription to null. -/
theorem extract_vowel_symbol_spec :
    extract_vowel_symbol (Cell.str "kʰɤ˧˥") = Cell.str "ɤ" ∧
    extract_vowel_symbol (Cell.str "m̩˨˩") = Cell.null ∧
    extract_vowel_symbol Cell.null = Cell.null ∧
    (∀ s : String,
      extract_vowel_symbol (Cell.str s) = Cell.null ↔
        ∀ c ∈ s.toList, ¬(isVowelChar c = true)) ∧
    (∀ s v : String, extract_vowel_symbol (Cell.str s) = Cell.str v →
      ∃ pre post, s.toList = pre ++ v.toList ++ post ∧ v.toList ≠ [] ∧
        (∀ c ∈ v.toList, isVowelChar c = true) ∧
        (∀ c ∈ pre, ¬(isVowelChar c = true)) ∧
        (∀ c, post.head? = some c → ¬(isVowelChar c = true))) := by
  refine ⟨by decide, by decide, rfl, ?_, ?_⟩
  · intro s
    show (match firstVowelRun s.toList with
      | some run => Cell.str (String.mk run)
      | none => Cell.null) = Cell.null ↔ _
    cases h : firstVowelRun s.toList with
    | none =>
      exact iff_of_true rfl ((firstVowelRun_eq_none_iff _).1 h)
    | some run =>
      constructor
      · intro hc; cases hc
      · intro hall
        rw [(firstVowelRun_eq_none_iff _).2 hall] at h
        cases h
  · intro s v hv
    have : (match firstVowelRun s.toList with
      | some run => Cell.str (String.mk run)
      | none => Cell.null) = Cell.str v := hv
    cases h : firstVowelRun s.toList with
    | none => rw [h] at this; cases this
    | some run =>
      rw [h] at this
      have hrun : run = v.toList := by
        cases this
        rfl
      rw [hrun] at h
      exact firstVowelRun_spec _ _ h

/-- Witness for C3: instantiating the run-characterisation at the concrete
transcription `"kʰɤ˧˥"` and its extracted vowel `"ɤ"`. -/
theorem extract_vowel_symbol_spec_witness :
    ∃ pre post, ("kʰɤ˧˥" : String).toList = pre ++ ("ɤ" : String).toList ++ post ∧
      ("ɤ" : String).toList ≠ [] ∧
      (∀ c ∈ ("ɤ" : String).toList, isVowelChar c = true) ∧
      (∀ c ∈ pre, ¬(isVowelChar c = true)) ∧
      (∀ c, post.head? = some c → ¬(isVowelChar c = true)) :=
  extract_vowel_symbol_spec.2.2.2.2 "kʰɤ˧˥" "ɤ" extract_vowel_symbol_spec.1

/-! ## Claim C4 — the row validator/filter -/

/-- C4: on an ingested record set (where `pd.read_csv` has turned empty
fields into null, so no cell holds the empty string), the validator keeps
exactly the rows whose rhyme label `韵` is present and non-empty, whose
onset-group label `声组` is present and non-empty, and whose rhyme label
differs from the literal header token `"韵"`; it never changes the column
list. -/
theorem filterValid_spec (df : DF) (r : Row)
    (hing : ∀ row ∈ df.rows,
      getCell row "韵" ≠ Cell.str "" ∧ getCell row "声组" ≠ Cell.str "") :
    (r ∈ (filterValid df).rows ↔
      r ∈ df.rows ∧
        (getCell r "韵" ≠ Cell.null ∧ getCell r "韵" ≠ Cell.str "") ∧
        (getCell r "声组" ≠ Cell.null ∧ getCell r "声组" ≠ Cell.str "") ∧
        getCell r "韵" ≠ Cell.str "韵") ∧
    (filterValid df).cols = df.cols := by
  refine ⟨?_, rfl⟩
  constructor
  · intro h
    simp only [filterValid, List.mem_filter, Bool.and_eq_true,
      decide_eq_true_eq] at h
    exact ⟨h.1.1, ⟨h.1.2.1, (hing r h.1.1).1⟩, ⟨h.1.2.2, (hing r h.1.1).2⟩, h.2⟩
  · rintro ⟨h1, ⟨h2, -⟩, ⟨h3, -⟩, h4⟩
    simp only [filterValid, List.mem_filter, Bool.and_eq_true,
      decide_eq_true_eq]
    exact ⟨⟨h1, h2, h3⟩, h4⟩

/-- Witness for C4 at a concrete frame: a row with both labels present and
a non-header rhyme is kept. -/
theorem filterValid_spec_witness :
    dfGood.rows[0]! ∈ (filterValid dfGood).rows ↔
      dfGood.rows[0]! ∈ dfGood.rows ∧
        (getCell dfGood.rows[0]! "韵" ≠ Cell.null ∧
          getCell dfGood.rows[0]! "韵" ≠ Cell.str "") ∧
        (getCell dfGood.rows[0]! "声组" ≠ Cell.null ∧
          getCell dfGood.rows[0]! "声组" ≠ Cell.str "") ∧
        getCell dfGood.rows[0]! "韵" ≠ Cell.str "韵" :=
  (filterValid_spec dfGood dfGood.rows[0]! (by decide)).1

/-! ## Claim C6 — the column reconciler -/

theorem renameName_ne_phonetic (k : String) (hk : k ≠ "读音")
    (hp : k ≠ "phonetic") : renameName renameMap k ≠ "phonetic" := by
  simp only [renameMap, renameName]
  by_cases h1 : "汉字" = k
  · rw [if_pos h1]; decide
  · rw [if_neg h1, if_neg (fun e => hk e.symm)]
    exact hp

theorem renameName_ne_char (k : String) (hk : k ≠ "汉字")
    (hp : k ≠ "char") : renameName renameMap k ≠ "char" := by
  simp only [renameMap, renameName]
  rw [if_neg (fun e => hk e.symm)]
  by_cases h2 : "读音" = k
  · rw [if_pos h2]; decide
  · rw [if_neg h2]; exact hp

theorem getCell_renameRow_phonetic (r : Row)
    (hph : "phonetic" ∉ r.map Prod.fst) :
    getCell (r.map (fun p => (renameName renameMap p.1, p.2))) "phonetic" =
      getCell r "读音" := by
  induction r with
  | nil => rfl
  | cons p r ih =>
    cases p with
    | mk k v =>
      simp only [List.map_cons, List.mem_cons, not_or] at hph
      by_cases hk : k = "读音"
      · subst hk
        have h : renameName renameMap "读音" = "phonetic" := by decide
        simp [h]
      · have hne : renameName renameMap k ≠ "phonetic" :=
          renameName_ne_phonetic k hk (fun e => hph.1 e.symm)
        simp [hne, hk, ih hph.2]

theorem getCell_renameRow_char (r : Row)
    (hch : "char" ∉ r.map Prod.fst) :
    getCell (r.map (fun p => (renameName renameMap p.1, p.2))) "char" =
      getCell r "汉字" := by
  induction r with
  | nil => rfl
  | cons p r ih =>
    cases p with
    | mk k v =>
      simp only [List.map_cons, List.mem_cons, not_or] at hch
      by_cases hk : k = "汉字"
      · subst hk
        have h : renameName renameMap "汉字" = "char" := by decide
        simp [h]
      · have hne : renameName renameMap k ≠ "char" :=
          renameName_ne_char k hk (fun e => hch.1 e.symm)
        simp [hne, hk, ih hch.2]

/-- C6 counterexample: a source whose reading column bears only an
alternate subbranch-specific name (here `字音`) is not renamed — the
reconciler raises the `没找到读音列` error, and the full script already
rejects the source at the base-column check. -/
theorem reading_alternate_name_cex :
    "字音" ∈ dfAltReading.cols ∧ "读音" ∉ dfAltReading.cols ∧
    renameReading dfAltReading = .error PipeError.noReadingCol ∧
    pipeline [] (some dfAltReading) (some rmGood) =
      .error (PipeError.missingBaseCols ["读音"]) := by decide

/-- C6 amended: the reconciler recognises only the primary reading-column
name `读音`: when present, `汉字`/`读音` are renamed to `char`/`phonetic`
(cell values carried over); when absent it fails with the
`没找到读音列` error — there is no alternate-name fallback. -/
theorem renameReading_spec (df : DF) :
    ("读音" ∉ df.cols → renameReading df = .error PipeError.noReadingCol) ∧
    ("读音" ∈ df.cols →
      renameReading df = .ok (renameCols df renameMap) ∧
      "phonetic" ∈ (renameCols df renameMap).cols ∧
      (renameCols df renameMap).rows.length = df.rows.length ∧
      ∀ r ∈ df.rows, "phonetic" ∉ r.map Prod.fst → "char" ∉ r.map Prod.fst →
        (getCell (r.map (fun p => (renameName renameMap p.1, p.2))) "phonetic" =
            getCell r "读音" ∧
         getCell (r.map (fun p => (renameName renameMap p.1, p.2))) "char" =
            getCell r "汉字")) := by
  refine ⟨fun h => by simp [renameReading, h], fun h => ⟨by simp [renameReading, h], ?_, ?_, ?_⟩⟩
  · have hv : renameName renameMap "读音" = "phonetic" := by decide
    exact hv ▸ List.mem_map_of_mem (renameName renameMap) h
  · simp [renameCols]
  · intro r _ h1 h2
    exact ⟨getCell_renameRow_phonetic r h1, getCell_renameRow_char r h2⟩

/-- Witness for C6 (amended) at the concrete frame `dfGood`. -/
theorem renameReading_spec_witness :
    renameReading dfGood = .ok (renameCols dfGood renameMap) ∧
    "phonetic" ∈ (renameCols dfGood renameMap).cols ∧
    (renameCols dfGood renameMap).rows.length = dfGood.rows.length ∧
    ∀ r ∈ dfGood.rows, "phonetic" ∉ r.map Prod.fst → "char" ∉ r.map Prod.fst →
      (getCell (r.map (fun p => (renameName renameMap p.1, p.2))) "phonetic" =
          getCell r "读音" ∧
       getCell (r.map (fun p => (renameName renameMap p.1, p.2))) "char" =
          getCell r "汉字") :=
  (renameReading_spec dfGood).2 (by decide)

/-! ## Claim C7 — point-identity columns -/

theorem filter_not_mem_eq_nil (l cols : List String)
    (h : ∀ c ∈ l, c ∈ cols) : l.filter (fun c => decide (c ∉ cols)) = [] := by
  induction l with
  | nil => rfl
  | cons a l ih =>
    rw [List.filter_cons_of_neg (by simp [h a (List.mem_cons_self a l)])]
    exact ih (fun c hc => h c (List.mem_cons_of_mem a hc))

theorem filter_not_mem_ne_nil (l cols : List String)
    (h : ∃ c ∈ l, c ∉ cols) : l.filter (fun c => decide (c ∉ cols)) ≠ [] := by
  obtain ⟨c, hc, hnc⟩ := h
  intro hnil
  have hm : c ∈ l.filter (fun c => decide (c ∉ cols)) :=
    List.mem_filter.2 ⟨hc, by simpa using hnc⟩
  rw [hnil] at hm
  cases hm

theorem checkBaseCols_ok_of (df : DF)
    (h : ∀ c ∈ required_base_cols, c ∈ df.cols) : checkBaseCols df = .ok df := by
  unfold checkBaseCols
  rw [filter_not_mem_eq_nil _ _ h]
  rfl

theorem concatDF_single (d : DF) : concatDF [d] = ⟨d.cols, d.rows⟩ := by
  unfold concatDF concatCols
  simp [List.filter_eq_self]

/-- C7 counterexample: a single-point legacy source carrying no inline
point-identity columns fails with the missing-point-columns error; no
constant point-identity values are injected. -/
theorem point_identity_injection_cex :
    "point_id" ∉ dfNoPoint.cols ∧
    (∀ c ∈ required_base_cols, c ∈ dfNoPoint.cols) ∧
    pipeline [] (some dfNoPoint) (some rmGood) =
      .error (PipeError.missingPointCols
        ["point_id", "point_name", "subbranch", "lat", "lon"]) := by decide

/-- C7 amended: the point-identity columns are required for every source —
the single-point legacy file included; ingestion of a source lacking one
fails (`缺少方言点列` ValueError) on both the legacy and the per-point
paths, with no recovery. -/
theorem point_cols_required (df : DF) (rmF : Option DF)
    (hbase : ∀ c ∈ required_base_cols, c ∈ df.cols)
    (hmiss : ∃ c ∈ required_point_cols, c ∉ df.cols) :
    (∃ m, pipeline [] (some df) rmF = .error (PipeError.missingPointCols m) ∧
      m ≠ []) ∧
    (∃ m, pipeline [df] none rmF = .error (PipeError.missingPointCols m) ∧
      m ≠ []) := by
  have hpoint : checkPointCols (filterValid df) =
      .error (.missingPointCols
        (required_point_cols.filter (fun c => decide (c ∉ df.cols)))) := by
    unfold checkPointCols
    rw [if_neg]
    · rfl
    · intro hemp
      exact filter_not_mem_ne_nil _ _ hmiss (List.isEmpty_iff.1 hemp)
  have hne : required_point_cols.filter (fun c => decide (c ∉ df.cols)) ≠ [] :=
    filter_not_mem_ne_nil _ _ hmiss
  constructor
  · refine ⟨_, ?_, hne⟩
    have hpre : stagePre [] (some df) =
        .error (.missingPointCols
          (required_point_cols.filter (fun c => decide (c ∉ df.cols)))) := by
      unfold stagePre loadRaw
      simp only [List.isEmpty_nil, if_pos]
      rw [checkBaseCols_ok_of df hbase]
      exact hpoint
    unfold pipeline
    rw [hpre]
  · refine ⟨_, ?_, hne⟩
    have hload : loadRaw [df] none = .ok ⟨df.cols, df.rows⟩ := by
      unfold loadRaw
      rw [if_neg (by simp)]
      rw [concatDF_single]
    have h1 : stagePre [df] none =
        (match checkBaseCols (⟨df.cols, df.rows⟩ : DF) with
         | Except.error e => Except.error e
         | Except.ok d2 => checkPointCols (filterValid d2)) := by
      unfold stagePre
      rw [hload]
    have hpre : stagePre [df] none =
        .error (.missingPointCols
          (required_point_cols.filter (fun c => decide (c ∉ df.cols)))) := by
      rw [h1, checkBaseCols_ok_of _ hbase]
      exact hpoint
    unfold pipeline
    rw [hpre]

/-- Witness for C7 (amended) at the concrete frame `dfNoPoint`. -/
theorem point_cols_required_witness :
    (∃ m, pipeline [] (some dfNoPoint) (some rmGood) =
      .error (PipeError.missingPointCols m) ∧ m ≠ []) ∧
    (∃ m, pipeline [dfNoPoint] none (some rmGood) =
      .error (PipeError.missingPointCols m) ∧ m ≠ []) :=
  point_cols_required dfNoPoint (some rmGood) (by decide)
    ⟨"point_id", by decide, by decide⟩

/-! ## Claim C8 — loading the reference mapping -/

theorem checkBaseCols_ok_iff (d d' : DF) (h : checkBaseCols d = .ok d') :
    d' = d ∧ ∀ c ∈ required_base_cols, c ∈ d.cols := by
  unfold checkBaseCols at h
  by_cases hemp : (required_base_cols.filter (fun c => decide (c ∉ d.cols))).isEmpty
  · rw [if_pos hemp] at h
    cases h
    refine ⟨rfl, ?_⟩
    intro c hc
    by_contra hnc
    have hm : c ∈ required_base_cols.filter (fun c => decide (c ∉ d.cols)) :=
      List.mem_filter.2 ⟨hc, by simpa using hnc⟩
    rw [List.isEmpty_iff.1 hemp] at hm
    cases hm
  · rw [if_neg hemp] at h
    cases h

theorem checkPointCols_ok_iff (d d' : DF) (h : checkPointCols d = .ok d') :
    d' = d ∧ ∀ c ∈ required_point_cols, c ∈ d.cols := by
  unfold checkPointCols at h
  by_cases hemp : (required_point_cols.filter (fun c => decide (c ∉ d.cols))).isEmpty
  · rw [if_pos hemp] at h
    cases h
    refine ⟨rfl, ?_⟩
    intro c hc
    by_contra hnc
    have hm : c ∈ required_point_cols.filter (fun c => decide (c ∉ d.cols)) :=
      List.mem_filter.2 ⟨hc, by simpa using hnc⟩
    rw [List.isEmpty_iff.1 hemp] at hm
    cases hm
  · rw [if_neg hemp] at h
    cases h

theorem filterValid_cols (d : DF) : (filterValid d).cols = d.cols := rfl

/-- A frame produced by `stagePre` carries all required base and
point-identity columns. -/
theorem stagePre_ok_cols (pfs : List DF) (legacy : Option DF) (df : DF)
    (h : stagePre pfs legacy = .ok df) :
    (∀ c ∈ required_base_cols, c ∈ df.cols) ∧
    (∀ c ∈ required_point_cols, c ∈ df.cols) := by
  unfold stagePre at h
  cases hl : loadRaw pfs legacy with
  | error e => rw [hl] at h; cases h
  | ok d1 =>
    rw [hl] at h
    have h2 : (match checkBaseCols d1 with
        | Except.error e => Except.error e
        | Except.ok d2 => checkPointCols (filterValid d2)) = Except.ok df := h
    cases hb : checkBaseCols d1 with
    | error e => rw [hb] at h2; cases h2
    | ok d2 =>
      rw [hb] at h2
      have h3 : checkPointCols (filterValid d2) = Except.ok df := h2
      obtain ⟨rfl, hbase⟩ := checkBaseCols_ok_iff d1 d2 hb
      obtain ⟨rfl, hpoint⟩ := checkPointCols_ok_iff (filterValid d2) df h3
      rw [filterValid_cols] at hpoint ⊢
      exact ⟨hbase, hpoint⟩

theorem mergeLeft_ok (l r : DF) (lk rk : String)
    (hl : lk ∈ l.cols) (hr : rk ∈ r.cols) :
    mergeLeft l r lk rk =
      .ok ⟨l.cols.map (suffixName (overlapCols l r) "_x") ++
             r.cols.map (suffixName (overlapCols l r) "_y"),
           joinAll (joinOne r lk rk (overlapCols l r)) l.rows⟩ := by
  unfold mergeLeft
  rw [if_pos hl, if_pos hr]

theorem not_mem_overlapCols (l r : DF) (c : String) (hnr : c ∉ r.cols) :
    c ∉ overlapCols l r := by
  intro hov
  exact hnr (by simpa using (List.mem_filter.1 hov).2)

theorem suffixName_id (ov : List String) (suf c : String) (h : c ∉ ov) :
    suffixName ov suf c = c := by
  unfold suffixName
  rw [if_neg h]

theorem mem_merged_cols_left (l r : DF) (c : String) (hc : c ∈ l.cols)
    (hnr : c ∉ r.cols) :
    c ∈ l.cols.map (suffixName (overlapCols l r) "_x") ++
        r.cols.map (suffixName (overlapCols l r) "_y") := by
  apply List.mem_append_left
  exact suffixName_id (overlapCols l r) "_x" c (not_mem_overlapCols l r c hnr) ▸
    List.mem_map_of_mem _ hc

theorem mem_assignCol_cols (d : DF) (c c' : String) (f : Row → Cell)
    (h : c' ∈ d.cols) : c' ∈ (assignCol d c f).cols := by
  unfold assignCol
  by_cases hc : c ∈ d.cols
  · rw [if_pos hc]; exact h
  · rw [if_neg hc]; exact List.mem_append_left _ h

theorem mem_assignCol_cols_self (d : DF) (c : String) (f : Row → Cell) :
    c ∈ (assignCol d c f).cols := by
  unfold assignCol
  by_cases hc : c ∈ d.cols
  · rw [if_pos hc]; exact hc
  · rw [if_neg hc]; exact List.mem_append_right _ (by simp)

theorem suffixName_nil_map (l : List String) (suf : String) :
    l.map (suffixName [] suf) = l := by
  induction l with
  | nil => rfl
  | cons a t ih => simp [suffixName, ih]

theorem mem_annotateTail_cols (d : DF) (c : String) (h : c ∈ d.cols) :
    c ∈ (annotateTail d).cols := by
  simp only [annotateTail]
  exact mem_assignCol_cols _ _ _ _ (mem_assignCol_cols _ _ _ _
    (mem_assignCol_cols _ _ _ _ (mem_assignCol_cols _ _ _ _
      (mem_assignCol_cols _ _ _ _ (mem_assignCol_cols _ _ _ _
        (mem_assignCol_cols _ _ _ _ h))))))

theorem renameName_id_of (c : String) (h1 : "汉字" ≠ c) (h2 : "读音" ≠ c) :
    renameName renameMap c = c := by
  simp only [renameMap, renameName]
  rw [if_neg h1, if_neg h2]

theorem mem_renameCols_of (d : DF) (c : String) (h : c ∈ d.cols)
    (h1 : "汉字" ≠ c) (h2 : "读音" ≠ c) :
    c ∈ (renameCols d renameMap).cols := by
  have hm := List.mem_map_of_mem (renameName renameMap) h
  rwa [renameName_id_of c h1 h2] at hm

theorem annotateAll_ok (m : DF) (h : "读音" ∈ m.cols)
    (hsz : "声组" ∈ m.cols) :
    annotateAll m = .ok (annotateTail (renameCols
      (assignCol m "onset_class" (fun r => getCell r "声组")) renameMap)) := by
  have h1 : "读音" ∈ (assignCol m "onset_class" (fun r => getCell r "声组")).cols :=
    mem_assignCol_cols _ _ _ _ h
  unfold annotateAll renameReading
  rw [if_pos hsz, if_pos h1]

/-- With both join keys present and a mapping that carries none of the
columns the script later reads (`读音`, `声组`, `韵` — which the merge
would otherwise suffix away on the source side), the post-merge pipeline
runs to completion. -/
theorem cleanFrom_ok_of (df rm : DF) (hy : "韵" ∈ df.cols)
    (hr : "rhyme" ∈ rm.cols) (hd : "读音" ∈ df.cols)
    (hnd : "读音" ∉ rm.cols) (hsd : "声组" ∈ df.cols)
    (hsnd : "声组" ∉ rm.cols) (hynd : "韵" ∉ rm.cols) :
    cleanFrom df rm = .ok (assembleClean (annotateTail (renameCols (assignCol
      ⟨df.cols.map (suffixName (overlapCols df rm) "_x") ++
         rm.cols.map (suffixName (overlapCols df rm) "_y"),
       joinAll (joinOne rm "韵" "rhyme" (overlapCols df rm)) df.rows⟩
      "onset_class" (fun r => getCell r "声组")) renameMap))) := by
  have hmy : "读音" ∈
      (df.cols.map (suffixName (overlapCols df rm) "_x") ++
        rm.cols.map (suffixName (overlapCols df rm) "_y")) :=
    mem_merged_cols_left df rm "读音" hd hnd
  have hms : "声组" ∈
      (df.cols.map (suffixName (overlapCols df rm) "_x") ++
        rm.cols.map (suffixName (overlapCols df rm) "_y")) :=
    mem_merged_cols_left df rm "声组" hsd hsnd
  have hmyun : "韵" ∈
      (df.cols.map (suffixName (overlapCols df rm) "_x") ++
        rm.cols.map (suffixName (overlapCols df rm) "_y")) :=
    mem_merged_cols_left df rm "韵" hy hynd
  have hya : "韵" ∈ (annotateTail (renameCols (assignCol
      ⟨df.cols.map (suffixName (overlapCols df rm) "_x") ++
         rm.cols.map (suffixName (overlapCols df rm) "_y"),
       joinAll (joinOne rm "韵" "rhyme" (overlapCols df rm)) df.rows⟩
      "onset_class" (fun r => getCell r "声组")) renameMap)).cols :=
    mem_annotateTail_cols _ _ (mem_renameCols_of _ _
      (mem_assignCol_cols _ _ _ _ hmyun) (by decide) (by decide))
  unfold cleanFrom
  rw [mergeLeft_ok df rm "韵" "rhyme" hy hr]
  show (match annotateAll (⟨df.cols.map (suffixName (overlapCols df rm) "_x") ++
           rm.cols.map (suffixName (overlapCols df rm) "_y"),
         joinAll (joinOne rm "韵" "rhyme" (overlapCols df rm)) df.rows⟩ : DF) with
    | Except.error e => (Except.error e : Except PipeError DF)
    | Except.ok a =>
      if "韵" ∈ a.cols then Except.ok (assembleClean a)
      else Except.error (PipeError.keyError "韵")) = _
  rw [annotateAll_ok (⟨df.cols.map (suffixName (overlapCols df rm) "_x") ++
        rm.cols.map (suffixName (overlapCols df rm) "_y"),
      joinAll (joinOne rm "韵" "rhyme" (overlapCols df rm)) df.rows⟩ : DF) hmy hms]
  have hfin : (if "韵" ∈ (annotateTail (renameCols (assignCol
      ⟨df.cols.map (suffixName (overlapCols df rm) "_x") ++
         rm.cols.map (suffixName (overlapCols df rm) "_y"),
       joinAll (joinOne rm "韵" "rhyme" (overlapCols df rm)) df.rows⟩
      "onset_class" (fun r => getCell r "声组")) renameMap)).cols
      then Except.ok (assembleClean (annotateTail (renameCols (assignCol
        ⟨df.cols.map (suffixName (overlapCols df rm) "_x") ++
           rm.cols.map (suffixName (overlapCols df rm) "_y"),
         joinAll (joinOne rm "韵" "rhyme" (overlapCols df rm)) df.rows⟩
        "onset_class" (fun r => getCell r "声组")) renameMap)))
      else Except.error (PipeError.keyError "韵")) =
      Except.ok (assembleClean (annotateTail (renameCols (assignCol
        ⟨df.cols.map (suffixName (overlapCols df rm) "_x") ++
           rm.cols.map (suffixName (overlapCols df rm) "_y"),
         joinAll (joinOne rm "韵" "rhyme" (overlapCols df rm)) df.rows⟩
        "onset_class" (fun r => getCell r "声组")) renameMap))) := if_pos hya
  exact hfin

/-- C8 counterexample: a reference mapping lacking all four mapped-attribute
columns (canonical modern rhyme, chain slot, initial-slot type, free-variant
flag) loads and joins without any error — that run completes successfully.
By contrast, a mapping that additionally carries a `声组` (resp. `韵`)
column makes the run crash with `KeyError` at line 53 (resp. line 95),
after the merge has suffixed the source column away — so the failure is
never the before-the-join configuration check the claim describes. -/
theorem rhyme_map_missing_cols_cex :
    "rhyme_modern" ∉ rmNoAttrs.cols ∧ "chain_slot" ∉ rmNoAttrs.cols ∧
    "slot_type_initial" ∉ rmNoAttrs.cols ∧ "is_free" ∉ rmNoAttrs.cols ∧
    pipeline [] (some dfGood) (some rmNoAttrs) = .ok cleanNoAttrs ∧
    pipeline [] (some dfGood) (some rmWithOnset) =
      .error (PipeError.keyError "声组") ∧
    pipeline [] (some dfGood) (some rmWithYun) =
      .error (PipeError.keyError "韵") := by decide

/-- C8 amended: loading the mapping fails when the reference file is absent
(`FileNotFoundError`); a mapping lacking the join-key column `rhyme` fails
only at the merge step, with pandas' `KeyError` — not before any join work.
A mapping whose columns stay within the documented schema (`rhyme`,
`rhyme_modern`, `chain_slot`, `slot_type_initial`, `is_free`) causes no
error at all even when all four mapped-attribute columns are missing: the
run completes and the missing output columns are simply dropped.  (The
source-side condition `"phonetic" ∉ df.cols` keeps the statement inside the
region where the embedding is exact: a source already carrying a `phonetic`
column would make line 58's rename duplicate it and line 75's read crash.) -/
theorem rhyme_map_load_spec (pfs : List DF) (legacy : Option DF) (df : DF)
    (hpre : stagePre pfs legacy = .ok df) :
    pipeline pfs legacy none =
      .error (PipeError.fileNotFound "rhyme_slot_mapping.csv") ∧
    (∀ rm : DF, "rhyme" ∉ rm.cols →
      pipeline pfs legacy (some rm) = .error (PipeError.keyError "rhyme")) ∧
    (∀ rm : DF, "rhyme" ∈ rm.cols →
      (∀ c ∈ rm.cols, c ∈ (["rhyme", "rhyme_modern", "chain_slot",
        "slot_type_initial", "is_free"] : List String)) →
      "phonetic" ∉ df.cols →
      ∃ out, pipeline pfs legacy (some rm) = .ok out) := by
  have hcols := stagePre_ok_cols pfs legacy df hpre
  have hy : "韵" ∈ df.cols := hcols.1 _ (by decide)
  have hd : "读音" ∈ df.cols := hcols.1 _ (by decide)
  have hsd : "声组" ∈ df.cols := hcols.1 _ (by decide)
  refine ⟨?_, ?_, ?_⟩
  · unfold pipeline
    rw [hpre]
    rfl
  · intro rm hrm
    unfold pipeline
    rw [hpre]
    show cleanFrom df rm = .error (PipeError.keyError "rhyme")
    unfold cleanFrom
    have hm : mergeLeft df rm "韵" "rhyme" = .error (.keyError "rhyme") := by
      unfold mergeLeft
      rw [if_pos hy, if_neg hrm]
    rw [hm]
  · intro rm hrm hsub hph
    have hnd : "读音" ∉ rm.cols := fun hc =>
      (by decide : "读音" ∉ (["rhyme", "rhyme_modern", "chain_slot",
        "slot_type_initial", "is_free"] : List String)) (hsub _ hc)
    have hsnd : "声组" ∉ rm.cols := fun hc =>
      (by decide : "声组" ∉ (["rhyme", "rhyme_modern", "chain_slot",
        "slot_type_initial", "is_free"] : List String)) (hsub _ hc)
    have hynd : "韵" ∉ rm.cols := fun hc =>
      (by decide : "韵" ∉ (["rhyme", "rhyme_modern", "chain_slot",
        "slot_type_initial", "is_free"] : List String)) (hsub _ hc)
    have hthis : pipeline pfs legacy (some rm) =
        .ok (assembleClean (annotateTail (renameCols (assignCol
          ⟨df.cols.map (suffixName (overlapCols df rm) "_x") ++
             rm.cols.map (suffixName (overlapCols df rm) "_y"),
           joinAll (joinOne rm "韵" "rhyme" (overlapCols df rm)) df.rows⟩
          "onset_class" (fun r => getCell r "声组")) renameMap))) := by
      unfold pipeline
      rw [hpre]
      show cleanFrom df rm = _
      exact cleanFrom_ok_of df rm hy hrm hd hnd hsd hsnd hynd
    exact ⟨_, hthis⟩

/-- Witness for C8 (amended) with the concrete pre-stage frame `dfGood`. -/
theorem rhyme_map_load_spec_witness :
    pipeline [] (some dfGood) none =
      .error (PipeError.fileNotFound "rhyme_slot_mapping.csv") ∧
    (∀ rm : DF, "rhyme" ∉ rm.cols →
      pipeline [] (some dfGood) (some rm) = .error (PipeError.keyError "rhyme")) ∧
    (∀ rm : DF, "rhyme" ∈ rm.cols →
      (∀ c ∈ rm.cols, c ∈ (["rhyme", "rhyme_modern", "chain_slot",
        "slot_type_initial", "is_free"] : List String)) →
      "phonetic" ∉ dfGood.cols →
      ∃ out, pipeline [] (some dfGood) (some rm) = .ok out) :=
  rhyme_map_load_spec [] (some dfGood) dfGood (by decide)

/-! ## Claim C2 — the slot join preserves rows -/

theorem joinOne_length_pos (r : DF) (lk rk : String) (ov : List String)
    (lr : Row) : 1 ≤ (joinOne r lk rk ov lr).length := by
  unfold joinOne
  by_cases h : (r.rows.filter
      (fun rr => decide (getCell rr rk = getCell lr lk))).isEmpty
  · rw [if_pos h]; simp
  · rw [if_neg h, List.length_map]
    exact List.length_pos.2 (fun e => h (by rw [e]; rfl))

theorem joinOne_length_eq_one_iff (r : DF) (lk rk : String) (ov : List String)
    (lr : Row) :
    (joinOne r lk rk ov lr).length = 1 ↔
      (r.rows.filter (fun rr => decide (getCell rr rk = getCell lr lk))).length ≤ 1 := by
  unfold joinOne
  by_cases h : (r.rows.filter
      (fun rr => decide (getCell rr rk = getCell lr lk))).isEmpty
  · rw [if_pos h]
    have he : r.rows.filter (fun rr => decide (getCell rr rk = getCell lr lk)) = [] :=
      List.isEmpty_iff.1 h
    rw [he]
    simp
  · rw [if_neg h, List.length_map]
    have hpos : 1 ≤ (r.rows.filter
        (fun rr => decide (getCell rr rk = getCell lr lk))).length :=
      List.length_pos.2 (fun e => h (by rw [e]; rfl))
    omega

theorem joinAll_length_ge (f : Row → List Row) (l : List Row)
    (hf : ∀ x ∈ l, 1 ≤ (f x).length) :
    l.length ≤ (joinAll f l).length := by
  induction l with
  | nil => simp [joinAll]
  | cons x xs ih =>
    simp only [joinAll, List.length_append, List.length_cons]
    have h1 := hf x (List.mem_cons_self x xs)
    have h2 := ih (fun y hy => hf y (List.mem_cons_of_mem x hy))
    omega

theorem joinAll_length_eq_iff (f : Row → List Row) (l : List Row)
    (hf : ∀ x ∈ l, 1 ≤ (f x).length) :
    (joinAll f l).length = l.length ↔ ∀ x ∈ l, (f x).length = 1 := by
  induction l with
  | nil => simp [joinAll]
  | cons x xs ih =>
    simp only [joinAll, List.length_append, List.length_cons]
    have h1 := hf x (List.mem_cons_self x xs)
    have h2 := joinAll_length_ge f xs (fun y hy => hf y (List.mem_cons_of_mem x hy))
    have ih' := ih (fun y hy => hf y (List.mem_cons_of_mem x hy))
    constructor
    · intro he
      have hfx : (f x).length = 1 := by omega
      have hxs : (joinAll f xs).length = xs.length := by omega
      intro y hy
      rcases List.mem_cons.1 hy with rfl | hy
      · exact hfx
      · exact (ih'.1 hxs) y hy
    · intro hall
      have hfx : (f x).length = 1 := hall x (List.mem_cons_self x xs)
      have hxs : (joinAll f xs).length = xs.length :=
        ih'.2 (fun y hy => hall y (List.mem_cons_of_mem x hy))
      omega

theorem mem_joinAll (f : Row → List Row) (l : List Row) (y : Row) :
    y ∈ joinAll f l ↔ ∃ x ∈ l, y ∈ f x := by
  induction l with
  | nil => simp [joinAll]
  | cons x xs ih =>
    simp [joinAll, List.mem_append, ih, List.mem_cons, exists_eq_or_imp]

theorem suffixRow_nil (suf : String) (row : Row) :
    suffixRow [] suf row = row := by
  unfold suffixRow suffixName
  simp

theorem overlap_nil_disjoint (l r : DF) (h : overlapCols l r = []) :
    ∀ c ∈ l.cols, c ∉ r.cols := by
  intro c hc hcr
  have hm : c ∈ overlapCols l r := List.mem_filter.2 ⟨hc, by simpa using hcr⟩
  rw [h] at hm
  cases hm

theorem joinOne_of_no_match (r : DF) (lk rk : String) (lr : Row)
    (h : r.rows.filter (fun rr => decide (getCell rr rk = getCell lr lk)) = []) :
    joinOne r lk rk [] lr = [lr] := by
  unfold joinOne
  rw [h]
  simp [suffixRow_nil]

theorem joinOne_of_match (r : DF) (lk rk : String) (lr rr0 : Row) (ms : List Row)
    (h : r.rows.filter (fun rr => decide (getCell rr rk = getCell lr lk)) =
      rr0 :: ms) :
    joinOne r lk rk [] lr = (rr0 :: ms).map (fun rr => lr ++ rr) := by
  unfold joinOne
  rw [h, if_neg (by simp)]
  simp [suffixRow_nil]

/-- Keys bound in a row of a well-formed frame name its columns. -/
theorem row_key_mem_cols (d : DF) (hwf : d.WF) (r : Row) (hr : r ∈ d.rows)
    (c : String) (hc : c ∈ r.map Prod.fst) : c ∈ d.cols := by
  obtain ⟨p, hp, hpc⟩ := List.mem_map.1 hc
  exact hpc ▸ hwf r hr p hp

/-- C2: the left join on the rhyme label outputs at least one row per input
row — exactly one unless the row's rhyme label matches a duplicated mapping
key; every input row appears in the output with all its own columns intact,
and a row whose rhyme label matches no mapping entry appears with null
values in every mapping column rather than being discarded. -/
theorem slot_join_row_preservation (df rm m : DF)
    (hov : overlapCols df rm = []) (hwfl : df.WF) (hwfr : rm.WF)
    (hm : mergeLeft df rm "韵" "rhyme" = .ok m) :
    df.rows.length ≤ m.rows.length ∧
    (m.rows.length = df.rows.length ↔
      ∀ lr ∈ df.rows, matchCount rm "rhyme" (getCell lr "韵") ≤ 1) ∧
    (∀ lr ∈ df.rows, ∃ out ∈ m.rows, ∀ c ∈ df.cols,
      getCell out c = getCell lr c) ∧
    (∀ lr ∈ df.rows, matchCount rm "rhyme" (getCell lr "韵") = 0 →
      ∃ out ∈ m.rows, (∀ c ∈ df.cols, getCell out c = getCell lr c) ∧
        ∀ c ∈ rm.cols, getCell out c = Cell.null) := by
  have hdisj := overlap_nil_disjoint df rm hov
  by_cases h1 : "韵" ∈ df.cols
  · by_cases h2 : "rhyme" ∈ rm.cols
    · rw [mergeLeft_ok df rm "韵" "rhyme" h1 h2] at hm
      injection hm with hm
      rw [hov] at hm
      have hrows : m.rows = joinAll (joinOne rm "韵" "rhyme" []) df.rows := by
        rw [← hm]
      have hf : ∀ x ∈ df.rows, 1 ≤ (joinOne rm "韵" "rhyme" [] x).length :=
        fun x _ => joinOne_length_pos rm "韵" "rhyme" [] x
      refine ⟨?_, ?_, ?_, ?_⟩
      · rw [hrows]
        exact joinAll_length_ge _ _ hf
      · rw [hrows]
        rw [joinAll_length_eq_iff _ _ hf]
        constructor
        · intro hall lr hlr
          have := (joinOne_length_eq_one_iff rm "韵" "rhyme" [] lr).1 (hall lr hlr)
          exact this
        · intro hall lr hlr
          exact (joinOne_length_eq_one_iff rm "韵" "rhyme" [] lr).2 (hall lr hlr)
      · intro lr hlr
        cases hms : rm.rows.filter
            (fun rr => decide (getCell rr "rhyme" = getCell lr "韵")) with
        | nil =>
          refine ⟨lr, ?_, fun c _ => rfl⟩
          rw [hrows, mem_joinAll]
          exact ⟨lr, hlr, by rw [joinOne_of_no_match rm "韵" "rhyme" lr hms]; simp⟩
        | cons rr0 ms =>
          refine ⟨lr ++ rr0, ?_, ?_⟩
          · rw [hrows, mem_joinAll]
            refine ⟨lr, hlr, ?_⟩
            rw [joinOne_of_match rm "韵" "rhyme" lr rr0 ms hms]
            exact List.mem_map_of_mem _ (List.mem_cons_self rr0 ms)
          · intro c hc
            by_cases hk : c ∈ lr.map Prod.fst
            · exact getCell_append_left lr rr0 c hk
            · rw [getCell_append_right lr rr0 c hk,
                getCell_eq_null_of_not_mem lr c hk]
              have hrr0 : rr0 ∈ rm.rows :=
                List.mem_filter.1 (hms ▸ List.mem_cons_self rr0 ms) |>.1
              apply getCell_eq_null_of_not_mem
              intro hkr
              exact hdisj c hc (row_key_mem_cols rm hwfr rr0 hrr0 c hkr)
      · intro lr hlr hcount
        have hms : rm.rows.filter
            (fun rr => decide (getCell rr "rhyme" = getCell lr "韵")) = [] :=
          List.length_eq_zero.1 hcount
        refine ⟨lr, ?_, fun c _ => rfl, ?_⟩
        · rw [hrows, mem_joinAll]
          exact ⟨lr, hlr, by rw [joinOne_of_no_match rm "韵" "rhyme" lr hms]; simp⟩
        · intro c hc
          apply getCell_eq_null_of_not_mem
          intro hk
          exact hdisj c (row_key_mem_cols df hwfl lr hlr c hk) hc
    · rw [mergeLeft, if_pos h1, if_neg h2] at hm
      cases hm
  · rw [mergeLeft, if_neg h1] at hm
    cases hm

/-- Witness for C2 at the concrete frames `dfGood`/`rmGood` and their
computed merge `mergedGood`. -/
theorem slot_join_row_preservation_witness :
    dfGood.rows.length ≤ mergedGood.rows.length ∧
    (mergedGood.rows.length = dfGood.rows.length ↔
      ∀ lr ∈ dfGood.rows, matchCount rmGood "rhyme" (getCell lr "韵") ≤ 1) ∧
    (∀ lr ∈ dfGood.rows, ∃ out ∈ mergedGood.rows, ∀ c ∈ dfGood.cols,
      getCell out c = getCell lr c) ∧
    (∀ lr ∈ dfGood.rows, matchCount rmGood "rhyme" (getCell lr "韵") = 0 →
      ∃ out ∈ mergedGood.rows, (∀ c ∈ dfGood.cols, getCell out c = getCell lr c) ∧
        ∀ c ∈ rmGood.cols, getCell out c = Cell.null) :=
  slot_join_row_preservation dfGood rmGood mergedGood (by decide) (by decide)
    (by decide) (by decide)

/-! ## Claim C1 — `rhyme_modern` copies the raw rhyme label -/

theorem map_congr_mem {α β : Type} (l : List α) (f g : α → β)
    (h : ∀ x ∈ l, f x = g x) : l.map f = l.map g := by
  induction l with
  | nil => rfl
  | cons x xs ih =>
    simp only [List.map_cons]
    rw [h x (List.mem_cons_self x xs),
      ih (fun y hy => h y (List.mem_cons_of_mem x hy))]

theorem getCell_proj (keep : List String) (r : Row) (c : String)
    (hc : c ∈ keep) :
    getCell (keep.map (fun c => (c, getCell r c))) c = getCell r c := by
  induction keep with
  | nil => cases hc
  | cons k ks ih =>
    by_cases hk : k = c
    · subst hk; simp
    · rcases List.mem_cons.1 hc with h | h
      · exact absurd h.symm hk
      · simp [hk, ih h]

theorem assembleClean_rows_eq (d : DF) :
    (assembleClean d).rows =
      (assignCol d "rhyme_modern" (fun r => getCell r "韵")).rows.map (fun r =>
        (cols_order.filter (fun c =>
          decide (c ∈ (assignCol d "rhyme_modern" (fun r => getCell r "韵")).cols))).map
          (fun c => (c, getCell r c))) := rfl

theorem assembleClean_cols_eq (d : DF) :
    (assembleClean d).cols =
      cols_order.filter (fun c =>
        decide (c ∈ (assignCol d "rhyme_modern" (fun r => getCell r "韵")).cols)) := rfl

theorem assignCol_rows_eq (d : DF) (c : String) (f : Row → Cell) :
    (assignCol d c f).rows = d.rows.map (fun r => setCell r c (f r)) := rfl

theorem renameCols_rows_eq (d : DF) (t : List (String × String)) :
    (renameCols d t).rows =
      d.rows.map (fun r => r.map (fun p => (renameName t p.1, p.2))) := rfl

theorem assignCol_map_col (d : DF) (c c' : String) (f : Row → Cell)
    (h : c ≠ c') :
    (assignCol d c f).rows.map (fun r => getCell r c') =
      d.rows.map (fun r => getCell r c') := by
  rw [assignCol_rows_eq, List.map_map]
  exact map_congr_mem _ _ _
    (fun r _ => getCell_setCell_other r c c' (f r) h)

theorem renameName_eq_only (c : String) (h1 : "char" ≠ c)
    (h2 : "phonetic" ≠ c) :
    ∀ k, renameName renameMap k = c → k = c := by
  intro k hk
  simp only [renameMap, renameName] at hk
  by_cases ha : "汉字" = k
  · rw [if_pos ha] at hk; exact absurd hk h1
  · rw [if_neg ha] at hk
    by_cases hb : "读音" = k
    · rw [if_pos hb] at hk; exact absurd hk h2
    · rw [if_neg hb] at hk; exact hk

theorem getCell_renameRow_other (r : Row) (c : String)
    (hc : renameName renameMap c = c)
    (hne : ∀ k, renameName renameMap k = c → k = c) :
    getCell (r.map (fun p => (renameName renameMap p.1, p.2))) c =
      getCell r c := by
  induction r with
  | nil => rfl
  | cons p r ih =>
    cases p with
    | mk k v =>
      by_cases hk : k = c
      · subst hk; simp [hc]
      · have hkk : renameName renameMap k ≠ c := fun he => hk (hne k he)
        simp [hkk, hk, ih]

theorem renameCols_map_col (d : DF) (c : String)
    (hc : renameName renameMap c = c)
    (hne : ∀ k, renameName renameMap k = c → k = c) :
    (renameCols d renameMap).rows.map (fun r => getCell r c) =
      d.rows.map (fun r => getCell r c) := by
  rw [renameCols_rows_eq, List.map_map]
  exact map_congr_mem _ _ _
    (fun r _ => getCell_renameRow_other r c hc hne)

theorem renameReading_ok_iff (d d2 : DF) (h : renameReading d = .ok d2) :
    d2 = renameCols d renameMap ∧ "读音" ∈ d.cols := by
  unfold renameReading at h
  by_cases hd : "读音" ∈ d.cols
  · rw [if_pos hd] at h
    cases h
    exact ⟨rfl, hd⟩
  · rw [if_neg hd] at h
    cases h

theorem annotateTail_map_col (d : DF) (c : String)
    (h : c ∉ ["vowel_symbol", "vowel_class", "reading_layer", "mainlayer_flag",
      "combo_validity", "zero_type", "feature_change"]) :
    (annotateTail d).rows.map (fun r => getCell r c) =
      d.rows.map (fun r => getCell r c) := by
  simp only [annotateTail]
  rw [assignCol_map_col _ _ _ _ (fun he => h (by rw [← he]; decide))]
  rw [assignCol_map_col _ _ _ _ (fun he => h (by rw [← he]; decide))]
  rw [assignCol_map_col _ _ _ _ (fun he => h (by rw [← he]; decide))]
  rw [assignCol_map_col _ _ _ _ (fun he => h (by rw [← he]; decide))]
  rw [assignCol_map_col _ _ _ _ (fun he => h (by rw [← he]; decide))]
  rw [assignCol_map_col _ _ _ _ (fun he => h (by rw [← he]; decide))]
  rw [assignCol_map_col _ _ _ _ (fun he => h (by rw [← he]; decide))]

theorem annotateAll_ok_eq (m a : DF) (ha : annotateAll m = .ok a) :
    a = annotateTail (renameCols
      (assignCol m "onset_class" (fun r => getCell r "声组")) renameMap) := by
  unfold annotateAll at ha
  by_cases hsz : "声组" ∈ m.cols
  · rw [if_pos hsz] at ha
    cases hre : renameReading (assignCol m "onset_class" (fun r => getCell r "声组")) with
    | error e => rw [hre] at ha; cases ha
    | ok d2 =>
      rw [hre] at ha
      cases ha
      rw [(renameReading_ok_iff _ d2 hre).1]
  · rw [if_neg hsz] at ha
    cases ha

/-- The final projection writes the raw `韵` value of each (annotated) row
into its `rhyme_modern` field. -/
theorem assembleClean_rhyme_modern (d : DF) :
    (assembleClean d).rows.map (fun r => getCell r "rhyme_modern") =
      d.rows.map (fun r => getCell r "韵") := by
  have hmem : "rhyme_modern" ∈ cols_order.filter (fun c =>
      decide (c ∈ (assignCol d "rhyme_modern" (fun r => getCell r "韵")).cols)) :=
    List.mem_filter.2 ⟨by decide,
      by simpa using mem_assignCol_cols_self d "rhyme_modern" _⟩
  rw [assembleClean_rows_eq, List.map_map, assignCol_rows_eq, List.map_map]
  apply map_congr_mem
  intro r _
  show getCell ((cols_order.filter _).map
    (fun c => (c, getCell (setCell r "rhyme_modern" (getCell r "韵")) c)))
    "rhyme_modern" = getCell r "韵"
  rw [getCell_proj _ _ _ hmem, getCell_setCell_same]

/-- The annotation stages never touch the `韵` column. -/
theorem annotateAll_map_yun (m a : DF) (ha : annotateAll m = .ok a) :
    a.rows.map (fun r => getCell r "韵") =
      m.rows.map (fun r => getCell r "韵") := by
  rw [annotateAll_ok_eq m a ha]
  rw [annotateTail_map_col _ _ (by decide)]
  rw [renameCols_map_col _ _ (by decide)
    (renameName_eq_only _ (by decide) (by decide))]
  rw [assignCol_map_col _ _ _ _ (by decide)]

/-- Every merged row's `韵` value is the `韵` value of the input row it was
built from. -/
theorem merged_yun_from_left (df rm m : DF)
    (hov : overlapCols df rm = []) (hwfr : rm.WF)
    (hm : mergeLeft df rm "韵" "rhyme" = .ok m) :
    ∀ row ∈ m.rows, ∃ lr ∈ df.rows, getCell row "韵" = getCell lr "韵" := by
  have hdisj := overlap_nil_disjoint df rm hov
  by_cases h1 : "韵" ∈ df.cols
  · by_cases h2 : "rhyme" ∈ rm.cols
    · rw [mergeLeft_ok df rm "韵" "rhyme" h1 h2] at hm
      injection hm with hm
      rw [hov] at hm
      have hrows : m.rows = joinAll (joinOne rm "韵" "rhyme" []) df.rows := by
        rw [← hm]
      intro row hrow
      rw [hrows, mem_joinAll] at hrow
      obtain ⟨lr, hlr, hin⟩ := hrow
      cases hms : rm.rows.filter
          (fun rr => decide (getCell rr "rhyme" = getCell lr "韵")) with
      | nil =>
        rw [joinOne_of_no_match rm "韵" "rhyme" lr hms] at hin
        rw [List.mem_singleton] at hin
        exact ⟨lr, hlr, by rw [hin]⟩
      | cons rr0 ms =>
        rw [joinOne_of_match rm "韵" "rhyme" lr rr0 ms hms] at hin
        obtain ⟨rr, hrr, hrw⟩ := List.mem_map.1 hin
        refine ⟨lr, hlr, ?_⟩
        rw [← hrw]
        by_cases hk : "韵" ∈ lr.map Prod.fst
        · exact getCell_append_left lr rr "韵" hk
        · rw [getCell_append_right lr rr "韵" hk,
            getCell_eq_null_of_not_mem lr "韵" hk]
          have hrr0 : rr ∈ rm.rows :=
            (List.mem_filter.1 (hms ▸ hrr)).1
          apply getCell_eq_null_of_not_mem
          intro hkr
          exact hdisj "韵" h1 (row_key_mem_cols rm hwfr rr hrr0 "韵" hkr)
    · rw [mergeLeft, if_pos h1, if_neg h2] at hm
      cases hm
  · rw [mergeLeft, if_neg h1] at hm
    cases hm

theorem get_of_map_getCell {l1 l2 : List Row} {f g : Row → Cell}
    (h : l1.map f = l2.map g) (i : Nat) (h1 : i < l1.length)
    (h2 : i < l2.length) : f (l1.get ⟨i, h1⟩) = g (l2.get ⟨i, h2⟩) := by
  have hh := congrArg (fun l => l.getD i Cell.null) h
  simp only [List.getD_eq_getElem?_getD] at hh
  rw [List.getElem?_map, List.getElem?_map,
    List.getElem?_eq_getElem h1, List.getElem?_eq_getElem h2] at hh
  simpa using hh

/-- C1: every final-output row's `rhyme_modern` equals its row's raw `韵`
label (which the merge and annotation stages carried through unchanged from
the validated input), not the canonical modern label the slot join attached
— whenever the joined row's `rhyme_modern` (the mapping's canonical label)
differs from the raw label, the output keeps the raw label and drops the
canonical one. -/
theorem rhyme_modern_is_raw_label (df rm m a : DF)
    (hov : overlapCols df rm = []) (hwfr : rm.WF)
    (hm : mergeLeft df rm "韵" "rhyme" = .ok m)
    (ha : annotateAll m = .ok a) :
    cleanFrom df rm = .ok (assembleClean a) ∧
    (assembleClean a).rows.map (fun r => getCell r "rhyme_modern") =
      a.rows.map (fun r => getCell r "韵") ∧
    a.rows.map (fun r => getCell r "韵") =
      m.rows.map (fun r => getCell r "韵") ∧
    (∀ row ∈ m.rows, ∃ lr ∈ df.rows, getCell row "韵" = getCell lr "韵") ∧
    (∀ i (hi : i < (assembleClean a).rows.length) (hj : i < a.rows.length),
      getCell (a.rows.get ⟨i, hj⟩) "rhyme_modern" ≠
          getCell (a.rows.get ⟨i, hj⟩) "韵" →
        getCell ((assembleClean a).rows.get ⟨i, hi⟩) "rhyme_modern" ≠
          getCell (a.rows.get ⟨i, hj⟩) "rhyme_modern") := by
  have hy : "韵" ∈ df.cols := by
    by_contra hny
    rw [mergeLeft, if_neg hny] at hm
    cases hm
  have hdisj := overlap_nil_disjoint df rm hov
  have hya : "韵" ∈ a.cols := by
    by_cases h2 : "rhyme" ∈ rm.cols
    · have hmc : "韵" ∈ m.cols := by
        rw [mergeLeft_ok df rm "韵" "rhyme" hy h2] at hm
        injection hm with hm
        rw [← hm]
        exact mem_merged_cols_left df rm "韵" hy (hdisj "韵" hy)
      rw [annotateAll_ok_eq m a ha]
      exact mem_annotateTail_cols _ _ (mem_renameCols_of _ _
        (mem_assignCol_cols _ _ _ _ hmc) (by decide) (by decide))
    · rw [mergeLeft, if_pos hy, if_neg h2] at hm
      cases hm
  have hclean : cleanFrom df rm = .ok (assembleClean a) := by
    have h1 : cleanFrom df rm = (match annotateAll m with
        | Except.error e => (Except.error e : Except PipeError DF)
        | Except.ok a =>
          if "韵" ∈ a.cols then Except.ok (assembleClean a)
          else Except.error (PipeError.keyError "韵")) := by
      unfold cleanFrom
      rw [hm]
    rw [h1, ha]
    exact if_pos hya
  refine ⟨hclean, assembleClean_rhyme_modern a, annotateAll_map_yun m a ha,
    merged_yun_from_left df rm m hov hwfr hm, ?_⟩
  intro i hi hj hne
  have hpt : getCell ((assembleClean a).rows.get ⟨i, hi⟩) "rhyme_modern" =
      getCell (a.rows.get ⟨i, hj⟩) "韵" :=
    get_of_map_getCell (assembleClean_rhyme_modern a) i hi hj
  rw [hpt]
  exact fun he => hne he.symm

/-- Witness for C1 at the concrete run `dfGood`/`rmGood`, whose mapping
supplies the canonical label `"ai"` for the raw rhyme label `"咍"`. -/
theorem rhyme_modern_is_raw_label_witness :
    cleanFrom dfGood rmGood = .ok (assembleClean annotGood) ∧
    (assembleClean annotGood).rows.map (fun r => getCell r "rhyme_modern") =
      annotGood.rows.map (fun r => getCell r "韵") ∧
    annotGood.rows.map (fun r => getCell r "韵") =
      mergedGood.rows.map (fun r => getCell r "韵") ∧
    (∀ row ∈ mergedGood.rows, ∃ lr ∈ dfGood.rows,
      getCell row "韵" = getCell lr "韵") ∧
    (∀ i (hi : i < (assembleClean annotGood).rows.length)
        (hj : i < annotGood.rows.length),
      getCell (annotGood.rows.get ⟨i, hj⟩) "rhyme_modern" ≠
          getCell (annotGood.rows.get ⟨i, hj⟩) "韵" →
        getCell ((assembleClean annotGood).rows.get ⟨i, hi⟩) "rhyme_modern" ≠
          getCell (annotGood.rows.get ⟨i, hj⟩) "rhyme_modern") :=
  rhyme_modern_is_raw_label dfGood rmGood mergedGood annotGood (by decide)
    (by decide) (by decide) (by decide)

/-! ## Claim C9 — constant annotations -/

theorem cleanFrom_ok_eq (df rm o : DF) (h : cleanFrom df rm = .ok o) :
    ∃ m a, mergeLeft df rm "韵" "rhyme" = .ok m ∧ annotateAll m = .ok a ∧
      "韵" ∈ a.cols ∧ o = assembleClean a := by
  unfold cleanFrom at h
  cases hm : mergeLeft df rm "韵" "rhyme" with
  | error e => rw [hm] at h; cases h
  | ok m =>
    rw [hm] at h
    have h2 : (match annotateAll m with
        | Except.error e => (Except.error e : Except PipeError DF)
        | Except.ok a =>
          if "韵" ∈ a.cols then Except.ok (assembleClean a)
          else Except.error (PipeError.keyError "韵")) = Except.ok o := h
    cases ha : annotateAll m with
    | error e => rw [ha] at h2; cases h2
    | ok a =>
      rw [ha] at h2
      have h3 : (if "韵" ∈ a.cols then Except.ok (assembleClean a)
          else Except.error (PipeError.keyError "韵")) = Except.ok o := h2
      by_cases hyn : "韵" ∈ a.cols
      · rw [if_pos hyn] at h3
        cases h3
        exact ⟨m, a, rfl, ha, hyn, rfl⟩
      · rw [if_neg hyn] at h3
        cases h3

theorem pipeline_ok_eq (pfs : List DF) (legacy rmF : Option DF) (out : DF)
    (h : pipeline pfs legacy rmF = .ok out) :
    ∃ df rm, stagePre pfs legacy = .ok df ∧ rmF = some rm ∧
      cleanFrom df rm = .ok out := by
  unfold pipeline at h
  cases hp : stagePre pfs legacy with
  | error e => rw [hp] at h; cases h
  | ok df =>
    rw [hp] at h
    have h2 : (match loadRhymeMap rmF with
        | Except.error e => (Except.error e : Except PipeError DF)
        | Except.ok rm => cleanFrom df rm) = Except.ok out := h
    cases rmF with
    | none =>
      have h3 : (Except.error (PipeError.fileNotFound "rhyme_slot_mapping.csv") :
          Except PipeError DF) = Except.ok out := h2
      cases h3
    | some rm =>
      have h3 : cleanFrom df rm = Except.ok out := h2
      exact ⟨df, rm, rfl, rfl, h3⟩

theorem annotateTail_mem_cols (d : DF) :
    "vowel_symbol" ∈ (annotateTail d).cols ∧
    "vowel_class" ∈ (annotateTail d).cols ∧
    "reading_layer" ∈ (annotateTail d).cols ∧
    "mainlayer_flag" ∈ (annotateTail d).cols ∧
    "combo_validity" ∈ (annotateTail d).cols ∧
    "zero_type" ∈ (annotateTail d).cols ∧
    "feature_change" ∈ (annotateTail d).cols := by
  simp only [annotateTail]
  exact ⟨
    mem_assignCol_cols _ _ _ _ (mem_assignCol_cols _ _ _ _
      (mem_assignCol_cols _ _ _ _ (mem_assignCol_cols _ _ _ _
        (mem_assignCol_cols _ _ _ _ (mem_assignCol_cols _ _ _ _
          (mem_assignCol_cols_self _ _ _)))))),
    mem_assignCol_cols _ _ _ _ (mem_assignCol_cols _ _ _ _
      (mem_assignCol_cols _ _ _ _ (mem_assignCol_cols _ _ _ _
        (mem_assignCol_cols _ _ _ _ (mem_assignCol_cols_self _ _ _))))),
    mem_assignCol_cols _ _ _ _ (mem_assignCol_cols _ _ _ _
      (mem_assignCol_cols _ _ _ _ (mem_assignCol_cols _ _ _ _
        (mem_assignCol_cols_self _ _ _)))),
    mem_assignCol_cols _ _ _ _ (mem_assignCol_cols _ _ _ _
      (mem_assignCol_cols _ _ _ _ (mem_assignCol_cols_self _ _ _))),
    mem_assignCol_cols _ _ _ _ (mem_assignCol_cols _ _ _ _
      (mem_assignCol_cols_self _ _ _)),
    mem_assignCol_cols _ _ _ _ (mem_assignCol_cols_self _ _ _),
    mem_assignCol_cols_self _ _ _⟩

/-- Every row produced by the annotation tail carries the five constants,
and its `vowel_class` equals its `vowel_symbol`. -/
theorem annotateTail_row_values (d : DF) :
    ∀ r ∈ (annotateTail d).rows,
      getCell r "reading_layer" = Cell.str "main" ∧
      getCell r "mainlayer_flag" = Cell.int 1 ∧
      getCell r "combo_validity" = Cell.int 1 ∧
      getCell r "zero_type" = Cell.str "none" ∧
      getCell r "feature_change" = Cell.null ∧
      getCell r "vowel_class" = getCell r "vowel_symbol" := by
  intro r hr
  simp only [annotateTail, assignCol_rows_eq, List.map_map] at hr
  obtain ⟨r0, hr0, rfl⟩ := List.mem_map.1 hr
  simp only [Function.comp_apply]
  refine ⟨?_, ?_, ?_, ?_, ?_, ?_⟩
  · rw [getCell_setCell_other _ "feature_change" "reading_layer" _ (by decide),
      getCell_setCell_other _ "zero_type" "reading_layer" _ (by decide),
      getCell_setCell_other _ "combo_validity" "reading_layer" _ (by decide),
      getCell_setCell_other _ "mainlayer_flag" "reading_layer" _ (by decide),
      getCell_setCell_same]
  · rw [getCell_setCell_other _ "feature_change" "mainlayer_flag" _ (by decide),
      getCell_setCell_other _ "zero_type" "mainlayer_flag" _ (by decide),
      getCell_setCell_other _ "combo_validity" "mainlayer_flag" _ (by decide),
      getCell_setCell_same]
  · rw [getCell_setCell_other _ "feature_change" "combo_validity" _ (by decide),
      getCell_setCell_other _ "zero_type" "combo_validity" _ (by decide),
      getCell_setCell_same]
  · rw [getCell_setCell_other _ "feature_change" "zero_type" _ (by decide),
      getCell_setCell_same]
  · rw [getCell_setCell_same]
  · rw [getCell_setCell_other _ "feature_change" "vowel_class" _ (by decide),
      getCell_setCell_other _ "zero_type" "vowel_class" _ (by decide),
      getCell_setCell_other _ "combo_validity" "vowel_class" _ (by decide),
      getCell_setCell_other _ "mainlayer_flag" "vowel_class" _ (by decide),
      getCell_setCell_other _ "reading_layer" "vowel_class" _ (by decide),
      getCell_setCell_same,
      getCell_setCell_other _ "feature_change" "vowel_symbol" _ (by decide),
      getCell_setCell_other _ "zero_type" "vowel_symbol" _ (by decide),
      getCell_setCell_other _ "combo_validity" "vowel_symbol" _ (by decide),
      getCell_setCell_other _ "mainlayer_flag" "vowel_symbol" _ (by decide),
      getCell_setCell_other _ "reading_layer" "vowel_symbol" _ (by decide),
      getCell_setCell_other _ "vowel_class" "vowel_symbol" _ (by decide)]

/-- Each final-output row restricts an annotated row: its non-`rhyme_modern`
canonical cells equal that row's cells. -/
theorem assembleClean_rows_src (a : DF) (r : Row)
    (hr : r ∈ (assembleClean a).rows) :
    ∃ ra ∈ a.rows, ∀ c, c ∈ cols_order → c ∈ a.cols → c ≠ "rhyme_modern" →
      getCell r c = getCell ra c := by
  rw [assembleClean_rows_eq, assignCol_rows_eq, List.map_map] at hr
  obtain ⟨ra, hra, rfl⟩ := List.mem_map.1 hr
  refine ⟨ra, hra, ?_⟩
  intro c hco hc hne
  simp only [Function.comp_apply]
  have hkeep : c ∈ cols_order.filter (fun c =>
      decide (c ∈ (assignCol a "rhyme_modern" (fun r => getCell r "韵")).cols)) :=
    List.mem_filter.2 ⟨hco,
      by simpa using mem_assignCol_cols a "rhyme_modern" c _ hc⟩
  rw [getCell_proj _ _ _ hkeep]
  exact getCell_setCell_other _ _ _ _ (fun he => hne he.symm)

/-- C9: every row of the final output carries the constant annotations —
`reading_layer = "main"`, `mainlayer_flag = 1`, `combo_validity = 1`,
`zero_type = "none"`, `feature_change` unset (null) — and its `vowel_class`
equals its `vowel_symbol` exactly (both null together included). -/
theorem constant_annotations_spec (pfs : List DF) (legacy rmF : Option DF)
    (out : DF) (h : pipeline pfs legacy rmF = .ok out) :
    ∀ r ∈ out.rows,
      getCell r "reading_layer" = Cell.str "main" ∧
      getCell r "mainlayer_flag" = Cell.int 1 ∧
      getCell r "combo_validity" = Cell.int 1 ∧
      getCell r "zero_type" = Cell.str "none" ∧
      getCell r "feature_change" = Cell.null ∧
      getCell r "vowel_class" = getCell r "vowel_symbol" := by
  obtain ⟨df, rm, hpre, hrm, hclean⟩ := pipeline_ok_eq pfs legacy rmF out h
  obtain ⟨m, a, hm, ha, hya, rfl⟩ := cleanFrom_ok_eq df rm out hclean
  have haT := annotateAll_ok_eq m a ha
  intro r hr
  obtain ⟨ra, hra, hcell⟩ := assembleClean_rows_src a r hr
  have hvals : getCell ra "reading_layer" = Cell.str "main" ∧
      getCell ra "mainlayer_flag" = Cell.int 1 ∧
      getCell ra "combo_validity" = Cell.int 1 ∧
      getCell ra "zero_type" = Cell.str "none" ∧
      getCell ra "feature_change" = Cell.null ∧
      getCell ra "vowel_class" = getCell ra "vowel_symbol" := by
    rw [haT] at hra
    exact annotateTail_row_values _ ra hra
  have hmem := annotateTail_mem_cols (renameCols
    (assignCol m "onset_class" (fun r => getCell r "声组")) renameMap)
  have hc1 : "vowel_symbol" ∈ a.cols := by rw [haT]; exact hmem.1
  have hc2 : "vowel_class" ∈ a.cols := by rw [haT]; exact hmem.2.1
  have hc3 : "reading_layer" ∈ a.cols := by rw [haT]; exact hmem.2.2.1
  have hc4 : "mainlayer_flag" ∈ a.cols := by rw [haT]; exact hmem.2.2.2.1
  have hc5 : "combo_validity" ∈ a.cols := by rw [haT]; exact hmem.2.2.2.2.1
  have hc6 : "zero_type" ∈ a.cols := by rw [haT]; exact hmem.2.2.2.2.2.1
  have hc7 : "feature_change" ∈ a.cols := by rw [haT]; exact hmem.2.2.2.2.2.2
  refine ⟨?_, ?_, ?_, ?_, ?_, ?_⟩
  · rw [hcell "reading_layer" (by decide) hc3 (by decide)]
    exact hvals.1
  · rw [hcell "mainlayer_flag" (by decide) hc4 (by decide)]
    exact hvals.2.1
  · rw [hcell "combo_validity" (by decide) hc5 (by decide)]
    exact hvals.2.2.1
  · rw [hcell "zero_type" (by decide) hc6 (by decide)]
    exact hvals.2.2.2.1
  · rw [hcell "feature_change" (by decide) hc7 (by decide)]
    exact hvals.2.2.2.2.1
  · rw [hcell "vowel_class" (by decide) hc2 (by decide),
      hcell "vowel_symbol" (by decide) hc1 (by decide)]
    exact hvals.2.2.2.2.2

/-- Witness for C9 at the one concrete row of the full run
`dfGood`/`rmGood`. -/
theorem constant_annotations_spec_witness :
    getCell (assembleClean annotGood).rows[0]! "reading_layer" =
        Cell.str "main" ∧
    getCell (assembleClean annotGood).rows[0]! "mainlayer_flag" = Cell.int 1 ∧
    getCell (assembleClean annotGood).rows[0]! "combo_validity" = Cell.int 1 ∧
    getCell (assembleClean annotGood).rows[0]! "zero_type" =
        Cell.str "none" ∧
    getCell (assembleClean annotGood).rows[0]! "feature_change" = Cell.null ∧
    getCell (assembleClean annotGood).rows[0]! "vowel_class" =
        getCell (assembleClean annotGood).rows[0]! "vowel_symbol" :=
  constant_annotations_spec [] (some dfGood) (some rmGood)
    (assembleClean annotGood) (by decide)
    (assembleClean annotGood).rows[0]! (by decide)

/-! ## Claim C10 — the `没找到读音列` branch is unreachable -/

/-- C10: once a record set has passed the required-base-columns check
(which demands `读音`), the `没找到读音列` error branch cannot fire: the
post-merge pipeline never returns that error, and whenever the merge
succeeds the rename of `汉字`/`读音` to `char`/`phonetic` executes.  (The
reference mapping is assumed not to carry a `读音` column of its own, as
its documented schema guarantees — a pathological mapping with a `读音`
column would make pandas suffix the source's `读音` away.) -/
theorem reading_branch_unreachable (pfs : List DF) (legacy : Option DF)
    (df rm : DF) (hpre : stagePre pfs legacy = .ok df)
    (hnd : "读音" ∉ rm.cols) :
    cleanFrom df rm ≠ .error PipeError.noReadingCol ∧
    (∀ m, mergeLeft df rm "韵" "rhyme" = .ok m →
      renameReading (assignCol m "onset_class" (fun r => getCell r "声组")) =
        .ok (renameCols (assignCol m "onset_class" (fun r => getCell r "声组"))
          renameMap)) := by
  have hcols := stagePre_ok_cols pfs legacy df hpre
  have hy : "韵" ∈ df.cols := hcols.1 _ (by decide)
  have hd : "读音" ∈ df.cols := hcols.1 _ (by decide)
  constructor
  · by_cases h2 : "rhyme" ∈ rm.cols
    · have hM : cleanFrom df rm =
          (match annotateAll (⟨df.cols.map (suffixName (overlapCols df rm) "_x") ++
               rm.cols.map (suffixName (overlapCols df rm) "_y"),
             joinAll (joinOne rm "韵" "rhyme" (overlapCols df rm)) df.rows⟩ : DF) with
           | Except.error e => (Except.error e : Except PipeError DF)
           | Except.ok a =>
             if "韵" ∈ a.cols then Except.ok (assembleClean a)
             else Except.error (PipeError.keyError "韵")) := by
        unfold cleanFrom
        rw [mergeLeft_ok df rm "韵" "rhyme" hy h2]
      by_cases hsz : "声组" ∈
          ((⟨df.cols.map (suffixName (overlapCols df rm) "_x") ++
              rm.cols.map (suffixName (overlapCols df rm) "_y"),
            joinAll (joinOne rm "韵" "rhyme" (overlapCols df rm)) df.rows⟩ : DF)).cols
      · have hmy : "读音" ∈
            (df.cols.map (suffixName (overlapCols df rm) "_x") ++
              rm.cols.map (suffixName (overlapCols df rm) "_y")) :=
          mem_merged_cols_left df rm "读音" hd hnd
        rw [hM, annotateAll_ok (⟨df.cols.map (suffixName (overlapCols df rm) "_x") ++
              rm.cols.map (suffixName (overlapCols df rm) "_y"),
            joinAll (joinOne rm "韵" "rhyme" (overlapCols df rm)) df.rows⟩ : DF)
          hmy hsz]
        intro hc
        have hc2 : (if "韵" ∈ (annotateTail (renameCols (assignCol
            (⟨df.cols.map (suffixName (overlapCols df rm) "_x") ++
                rm.cols.map (suffixName (overlapCols df rm) "_y"),
              joinAll (joinOne rm "韵" "rhyme" (overlapCols df rm)) df.rows⟩ : DF)
            "onset_class" (fun r => getCell r "声组")) renameMap)).cols
            then Except.ok (assembleClean (annotateTail (renameCols (assignCol
              (⟨df.cols.map (suffixName (overlapCols df rm) "_x") ++
                  rm.cols.map (suffixName (overlapCols df rm) "_y"),
                joinAll (joinOne rm "韵" "rhyme" (overlapCols df rm)) df.rows⟩ : DF)
              "onset_class" (fun r => getCell r "声组")) renameMap)))
            else Except.error (PipeError.keyError "韵")) =
            Except.error PipeError.noReadingCol := hc
        by_cases hyn : "韵" ∈ (annotateTail (renameCols (assignCol
            (⟨df.cols.map (suffixName (overlapCols df rm) "_x") ++
                rm.cols.map (suffixName (overlapCols df rm) "_y"),
              joinAll (joinOne rm "韵" "rhyme" (overlapCols df rm)) df.rows⟩ : DF)
            "onset_class" (fun r => getCell r "声组")) renameMap)).cols
        · rw [if_pos hyn] at hc2
          cases hc2
        · rw [if_neg hyn] at hc2
          injection hc2 with hc2
          cases hc2
      · have hann : annotateAll (⟨df.cols.map (suffixName (overlapCols df rm) "_x") ++
              rm.cols.map (suffixName (overlapCols df rm) "_y"),
            joinAll (joinOne rm "韵" "rhyme" (overlapCols df rm)) df.rows⟩ : DF) =
            .error (.keyError "声组") := by
          unfold annotateAll
          rw [if_neg hsz]
        rw [hM, hann]
        intro hc
        injection hc with hc
        cases hc
    · have he : cleanFrom df rm = .error (.keyError "rhyme") := by
        unfold cleanFrom mergeLeft
        rw [if_pos hy, if_neg h2]
      rw [he]
      intro hc
      injection hc with hc
      cases hc
  · intro m hm
    by_cases h2 : "rhyme" ∈ rm.cols
    · rw [mergeLeft_ok df rm "韵" "rhyme" hy h2] at hm
      injection hm with hm
      have hmy : "读音" ∈ m.cols := by
        rw [← hm]
        exact mem_merged_cols_left df rm "读音" hd hnd
      have h1 : "读音" ∈
          (assignCol m "onset_class" (fun r => getCell r "声组")).cols :=
        mem_assignCol_cols _ _ _ _ hmy
      unfold renameReading
      rw [if_pos h1]
    · rw [mergeLeft, if_pos hy, if_neg h2] at hm
      cases hm

/-- Witness for C10 at the concrete frames `dfGood`/`rmGood`. -/
theorem reading_branch_unreachable_witness :
    cleanFrom dfGood rmGood ≠ .error PipeError.noReadingCol ∧
    (∀ m, mergeLeft dfGood rmGood "韵" "rhyme" = .ok m →
      renameReading (assignCol m "onset_class" (fun r => getCell r "声组")) =
        .ok (renameCols (assignCol m "onset_class" (fun r => getCell r "声组"))
          renameMap)) :=
  reading_branch_unreachable [] (some dfGood) dfGood rmGood (by decide)
    (by decide)

/-! ## Claim C5 — output schema -/

/-- C5 counterexample: with a reference mapping that lacks the
mapped-attribute columns, the emitted clean table has only 16 columns —
`chain_slot`, `slot_type_initial` and `is_free` are silently dropped, so
the output does **not** always have the 19 canonical columns. -/
theorem schema_19_cols_cex :
    pipeline [] (some dfGood) (some rmNoAttrs) = .ok cleanNoAttrs ∧
    cleanNoAttrs.cols ≠ cols_order ∧
    cleanNoAttrs.cols.length = 16 ∧ cols_order.length = 19 ∧
    "chain_slot" ∉ cleanNoAttrs.cols := by decide

/-- C5 amended: the output's column list is always a subsequence of the
19-column canonical order (extra source columns never appear, the order is
fixed); it is exactly the 19 canonical columns when the reference mapping
supplies the mapped-attribute columns `chain_slot`, `slot_type_initial`,
`is_free` and shares no column name with the source frame. -/
theorem schema_projection_spec (pfs : List DF) (legacy rmF : Option DF)
    (out : DF) (h : pipeline pfs legacy rmF = .ok out) :
    out.cols.Sublist cols_order ∧
    (∀ df rm, stagePre pfs legacy = .ok df → rmF = some rm →
      overlapCols df rm = [] →
      "chain_slot" ∈ rm.cols → "slot_type_initial" ∈ rm.cols →
      "is_free" ∈ rm.cols → out.cols = cols_order) := by
  obtain ⟨df0, rm0, hpre0, hrm0, hclean0⟩ := pipeline_ok_eq pfs legacy rmF out h
  obtain ⟨m0, a0, hm0, ha0, hya0, ho0⟩ := cleanFrom_ok_eq df0 rm0 out hclean0
  constructor
  · rw [ho0, assembleClean_cols_eq]
    exact List.filter_sublist _
  · intro df rm hpre hrm hov hc1 hc2 hc3
    rw [hpre] at hpre0
    injection hpre0 with he
    subst he
    rw [hrm] at hrm0
    injection hrm0 with he2
    subst he2
    have hcols := stagePre_ok_cols pfs legacy df hpre
    have hy : "韵" ∈ df.cols := hcols.1 _ (by decide)
    by_cases hr : "rhyme" ∈ rm.cols
    · rw [mergeLeft_ok df rm "韵" "rhyme" hy hr] at hm0
      injection hm0 with hm0
      have hmcols : m0.cols = df.cols ++ rm.cols := by
        rw [← hm0]
        show List.map (suffixName (overlapCols df rm) "_x") df.cols ++
          List.map (suffixName (overlapCols df rm) "_y") rm.cols = _
        rw [hov, suffixName_nil_map, suffixName_nil_map]
      have haT := annotateAll_ok_eq m0 a0 ha0
      have hmemm : ∀ c, c ∈ df.cols ++ rm.cols → c ∈ m0.cols := by
        intro c hc
        rw [hmcols]
        exact hc
      have hfromdf : ∀ c, c ∈ df.cols → "汉字" ≠ c → "读音" ≠ c →
          c ∈ a0.cols := by
        intro c hc hne1 hne2
        rw [haT]
        exact mem_annotateTail_cols _ c (mem_renameCols_of _ c
          (mem_assignCol_cols _ _ _ _ (hmemm c (List.mem_append_left _ hc)))
          hne1 hne2)
      have hfromrm : ∀ c, c ∈ rm.cols → "汉字" ≠ c → "读音" ≠ c →
          c ∈ a0.cols := by
        intro c hc hne1 hne2
        rw [haT]
        exact mem_annotateTail_cols _ c (mem_renameCols_of _ c
          (mem_assignCol_cols _ _ _ _ (hmemm c (List.mem_append_right _ hc)))
          hne1 hne2)
      have hchar : "char" ∈ a0.cols := by
        rw [haT]
        apply mem_annotateTail_cols
        have hhz : "汉字" ∈
            (assignCol m0 "onset_class" (fun r => getCell r "声组")).cols :=
          mem_assignCol_cols _ _ _ _
            (hmemm _ (List.mem_append_left _ (hcols.1 _ (by decide))))
        have hmm := List.mem_map_of_mem (renameName renameMap) hhz
        rwa [show renameName renameMap "汉字" = "char" by decide] at hmm
      have hphon : "phonetic" ∈ a0.cols := by
        rw [haT]
        apply mem_annotateTail_cols
        have hhz : "读音" ∈
            (assignCol m0 "onset_class" (fun r => getCell r "声组")).cols :=
          mem_assignCol_cols _ _ _ _
            (hmemm _ (List.mem_append_left _ (hcols.1 _ (by decide))))
        have hmm := List.mem_map_of_mem (renameName renameMap) hhz
        rwa [show renameName renameMap "读音" = "phonetic" by decide] at hmm
      have honset : "onset_class" ∈ a0.cols := by
        rw [haT]
        exact mem_annotateTail_cols _ _ (mem_renameCols_of _ _
          (mem_assignCol_cols_self _ _ _) (by decide) (by decide))
      have htail := annotateTail_mem_cols (renameCols
        (assignCol m0 "onset_class" (fun r => getCell r "声组")) renameMap)
      have hall : ∀ c ∈ cols_order,
          c ∈ (assignCol a0 "rhyme_modern" (fun r => getCell r "韵")).cols := by
        intro c hc
        simp only [cols_order, List.mem_cons, List.not_mem_nil, or_false] at hc
        rcases hc with rfl | rfl | rfl | rfl | rfl | rfl | rfl | rfl | rfl |
          rfl | rfl | rfl | rfl | rfl | rfl | rfl | rfl | rfl | rfl
        · exact mem_assignCol_cols _ _ _ _
            (hfromdf _ (hcols.2 _ (by decide)) (by decide) (by decide))
        · exact mem_assignCol_cols _ _ _ _
            (hfromdf _ (hcols.2 _ (by decide)) (by decide) (by decide))
        · exact mem_assignCol_cols _ _ _ _
            (hfromdf _ (hcols.2 _ (by decide)) (by decide) (by decide))
        · exact mem_assignCol_cols _ _ _ _
            (hfromdf _ (hcols.2 _ (by decide)) (by decide) (by decide))
        · exact mem_assignCol_cols _ _ _ _
            (hfromdf _ (hcols.2 _ (by decide)) (by decide) (by decide))
        · exact mem_assignCol_cols_self _ _ _
        · exact mem_assignCol_cols _ _ _ _
            (hfromrm _ hc1 (by decide) (by decide))
        · exact mem_assignCol_cols _ _ _ _
            (hfromrm _ hc2 (by decide) (by decide))
        · exact mem_assignCol_cols _ _ _ _
            (hfromrm _ hc3 (by decide) (by decide))
        · exact mem_assignCol_cols _ _ _ _ honset
        · exact mem_assignCol_cols _ _ _ _ hchar
        · exact mem_assignCol_cols _ _ _ _ hphon
        · rw [haT]
          exact mem_assignCol_cols _ _ _ _ htail.1
        · rw [haT]
          exact mem_assignCol_cols _ _ _ _ htail.2.1
        · rw [haT]
          exact mem_assignCol_cols _ _ _ _ htail.2.2.1
        · rw [haT]
          exact mem_assignCol_cols _ _ _ _ htail.2.2.2.1
        · rw [haT]
          exact mem_assignCol_cols _ _ _ _ htail.2.2.2.2.1
        · rw [haT]
          exact mem_assignCol_cols _ _ _ _ htail.2.2.2.2.2.1
        · rw [haT]
          exact mem_assignCol_cols _ _ _ _ htail.2.2.2.2.2.2
      rw [ho0, assembleClean_cols_eq]
      apply List.filter_eq_self.mpr
      intro c hc
      simpa using hall c hc
    · rw [mergeLeft, if_pos hy, if_neg hr] at hm0
      cases hm0

/-- Witness for C5 (amended) at the concrete full-schema run. -/
theorem schema_projection_spec_witness :
    (assembleClean annotGood).cols.Sublist cols_order ∧
    (∀ df rm, stagePre [] (some dfGood) = .ok df → some rmGood = some rm →
      overlapCols df rm = [] →
      "chain_slot" ∈ rm.cols → "slot_type_initial" ∈ rm.cols →
      "is_free" ∈ rm.cols → (assembleClean annotGood).cols = cols_order) :=
  schema_projection_spec [] (some dfGood) (some rmGood)
    (assembleClean annotGood) (by decide)

end Wuyu
